import Mathlib

/-!
Verification of the OptiPix image-optimization plugin core.

The development shallowly embeds the three TypeScript source variants of the
plugin's privileged controller:

* `CodeTs`   — `src/code.ts`          (flat scanner, no kind allow-list)
* `Part000`  — `src/unnamed/part_000` (flat scanner, 7-kind allow-list)
* `Part001`  — `src/unnamed/part_001` (recursive scanner, 9-kind allow-list)

Host objects (scene nodes, paints, the indeterminate mixed fill sentinel) are
modelled as plain inductive data; host side effects (postMessage, notify,
fills writes, resize) are modelled as explicit effect values; asynchronous
host calls (image lookup, byte fetch, base64 encoding) are modelled as oracle
parameters supplied by the environment.
-/

/-- Figma scene-node kinds relevant to the plugin.  `inst` stands for the
`INSTANCE` kind, `section` for `SECTION` (a kind that owns a fill list in the
host API but appears in none of the allow-lists of the sources). -/
inductive NodeType where
  | rectangle
  | ellipse
  | polygon
  | star
  | vector
  | text
  | frame
  | component
  | inst
  | group
  | section
deriving DecidableEq

/-- A paint (fill layer).  An image paint carries an optional content hash,
mirroring `ImagePaint.imageHash : string | null`. -/
inductive Paint where
  | image (imageHash : Option String)
  | solid
  | gradient
deriving DecidableEq

/-- The value of a node's `fills` property as the sources observe it:
the property can be absent (`'fills' in node` is false, e.g. for groups),
the indeterminate `figma.mixed` sentinel, or a concrete paint array. -/
inductive Fills where
  | absent
  | mixed
  | concrete (paints : List Paint)
deriving DecidableEq

/-- A host scene node.  `hasWidth`/`hasHeight` model the `'width' in node` /
`'height' in node` property-presence tests, `hasResize` models
`'resize' in node && typeof node.resize === 'function'`, and `children` is
`[]` for nodes with no `children` property. -/
inductive SceneNode where
  | mk (id : String) (name : String) (ty : NodeType) (fills : Fills)
       (hasWidth : Bool) (width : Int) (hasHeight : Bool) (height : Int)
       (hasResize : Bool) (children : List SceneNode)

def SceneNode.id : SceneNode → String
  | .mk i _ _ _ _ _ _ _ _ _ => i

def SceneNode.name : SceneNode → String
  | .mk _ n _ _ _ _ _ _ _ _ => n

def SceneNode.ty : SceneNode → NodeType
  | .mk _ _ t _ _ _ _ _ _ _ => t

def SceneNode.fills : SceneNode → Fills
  | .mk _ _ _ f _ _ _ _ _ _ => f

def SceneNode.hasWidth : SceneNode → Bool
  | .mk _ _ _ _ hw _ _ _ _ _ => hw

def SceneNode.width : SceneNode → Int
  | .mk _ _ _ _ _ w _ _ _ _ => w

def SceneNode.hasHeight : SceneNode → Bool
  | .mk _ _ _ _ _ _ hh _ _ _ => hh

def SceneNode.height : SceneNode → Int
  | .mk _ _ _ _ _ _ _ h _ _ => h

def SceneNode.hasResize : SceneNode → Bool
  | .mk _ _ _ _ _ _ _ _ hr _ => hr

def SceneNode.children : SceneNode → List SceneNode
  | .mk _ _ _ _ _ _ _ _ _ cs => cs

/-- The `UniqueImageData` record of all three sources. -/
structure UniqueImageData where
  nodeId : String
  nodeName : String
  imageHash : String
  width : Int
  height : Int
  fileType : String
  imageBytes : Option (List Nat) := none
  url : Option String := none
deriving DecidableEq

/-- The candidate record built for a node/hash pair by every variant of
`getUniqueImageCandidates` (`fileType` defaulted to `'PNG'`). -/
def mkCandidate (n : SceneNode) (h : String) : UniqueImageData :=
  { nodeId := n.id, nodeName := n.name, imageHash := h,
    width := n.width, height := n.height, fileType := "PNG" }

/-- One entry of the `uniqueImageMap`: the `nodeId_imageHash` key paired with
the stored candidate. -/
abbrev Entry := String × UniqueImageData

/-- `uniqueImageMap.has(key)`. -/
def mapHasKey (m : List Entry) (k : String) : Bool :=
  m.any (fun e => e.1 == k)

/-- `if (!uniqueImageMap.has(uniqueKey)) uniqueImageMap.set(uniqueKey, v)` —
a JS `Map` keeps insertion order, so a fresh key is appended at the end. -/
def mapInsert (m : List Entry) (k : String) (v : UniqueImageData) : List Entry :=
  if mapHasKey m k then m else m ++ [(k, v)]

/-- Inserting a list of candidate entries in order (the inner
`for (const fill of imageFills)` loop). -/
def insertEntries (m : List Entry) (es : List Entry) : List Entry :=
  es.foldl (fun acc e => mapInsert acc e.1 e.2) m

/-- The image hashes of the fills that survive
`fills.filter(fill => fill.type === 'IMAGE' && fill.imageHash !== null)`,
in order.  Only the hash of each surviving fill is used downstream. -/
def imagePaintHashes (ps : List Paint) : List String :=
  ps.filterMap (fun p => match p with
    | Paint.image (some h) => some h
    | _ => none)

/-- The image hashes of a node's fill list (empty unless the fill list is a
concrete array). -/
def fillsImageHashes : Fills → List String
  | Fills.concrete ps => imagePaintHashes ps
  | _ => []

/-- `fills.some(fill => fill.type === 'IMAGE' && fill.imageHash !== null)`. -/
def hasImageFill (ps : List Paint) : Bool :=
  ps.any (fun p => match p with
    | Paint.image (some _) => true
    | _ => false)

/-- The `nodeId_imageHash` dedup key (template literal
with an underscore separator) used by every variant. -/
def uniqueKey (nodeId imageHash : String) : String :=
  nodeId ++ "_" ++ imageHash

namespace CodeTs

/-- The inline eligibility test of `getUniqueImageCandidates` in `code.ts`:
`'fills' in node && Array.isArray(node.fills) && 'width' in node &&
'height' in node`.  The `figma.mixed` sentinel is not an array, so it fails
`Array.isArray`; note there is no node-kind test in this variant. -/
def nodeQualifies (n : SceneNode) : Bool :=
  (match n.fills with
    | Fills.concrete _ => true
    | _ => false)
  && n.hasWidth && n.hasHeight

/-- The entries a single selected node feeds into the dedup map. -/
def nodeEntries (n : SceneNode) : List Entry :=
  if nodeQualifies n then
    (fillsImageHashes n.fills).map (fun h => (uniqueKey n.id h, mkCandidate n h))
  else []

/-- `getUniqueImageCandidates` of `code.ts`: iterate the selection (no
recursion), dedup by `nodeId_imageHash`, return `Array.from(map.values())`. -/
def getUniqueImageCandidates (selection : List SceneNode) : List UniqueImageData :=
  (selection.foldl (fun m n => insertEntries m (nodeEntries n)) []).map Prod.snd

end CodeTs

namespace Part000

/-- The allow-list of `isImageCapableNode` in `part_000` (no COMPONENT, no
INSTANCE). -/
def allowedTypes : List NodeType :=
  [NodeType.rectangle, NodeType.ellipse, NodeType.polygon, NodeType.star,
   NodeType.vector, NodeType.text, NodeType.frame]

/-- `isImageCapableNode` of `part_000`: fills/width/height present, fills not
`figma.mixed`, fills an array, kind in the allow-list.  (This variant does
not require an image fill to be present.) -/
def isImageCapableNode (n : SceneNode) : Bool :=
  match n.fills, n.hasWidth, n.hasHeight with
  | Fills.concrete _, true, true => allowedTypes.contains n.ty
  | _, _, _ => false

/-- The entries a single selected node feeds into the dedup map. -/
def nodeEntries (n : SceneNode) : List Entry :=
  if isImageCapableNode n then
    (fillsImageHashes n.fills).map (fun h => (uniqueKey n.id h, mkCandidate n h))
  else []

/-- `getUniqueImageCandidates` of `part_000` (flat, no recursion). -/
def getUniqueImageCandidates (selection : List SceneNode) : List UniqueImageData :=
  (selection.foldl (fun m n => insertEntries m (nodeEntries n)) []).map Prod.snd

end Part000

namespace Part001

/-- The allow-list of `isImageCapableNode` in `part_001`. -/
def allowedTypes : List NodeType :=
  [NodeType.rectangle, NodeType.ellipse, NodeType.polygon, NodeType.star,
   NodeType.vector, NodeType.text, NodeType.frame, NodeType.component,
   NodeType.inst]

/-- `isImageCapableNode` of `part_001`: fills/width/height present, fills not
`figma.mixed`, fills an array, kind in the allow-list, and at least one
image fill with a non-null hash. -/
def isImageCapableNode (n : SceneNode) : Bool :=
  match n.fills, n.hasWidth, n.hasHeight with
  | Fills.concrete ps, true, true =>
      allowedTypes.contains n.ty && hasImageFill ps
  | _, _, _ => false

/-- The entries the `traverse` visit step of one node feeds into the map. -/
def nodeEntries (n : SceneNode) : List Entry :=
  if isImageCapableNode n then
    (fillsImageHashes n.fills).map (fun h => (uniqueKey n.id h, mkCandidate n h))
  else []

mutual

/-- The recursive `traverse` of `part_001`: visit the node (inserting its
qualifying image fills into the dedup map), then recurse into children. -/
def traverse (m : List Entry) : SceneNode → List Entry
  | n@(SceneNode.mk _ _ _ _ _ _ _ _ _ cs) =>
      traverseList (insertEntries m (nodeEntries n)) cs

/-- Traversing a list of nodes in order, threading the dedup map. -/
def traverseList (m : List Entry) : List SceneNode → List Entry
  | [] => m
  | c :: cs => traverseList (traverse m c) cs

end

/-- `getUniqueImageCandidates` of `part_001`: depth-first pre-order traversal
of the selection, dedup by `nodeId_imageHash`, values in insertion order. -/
def getUniqueImageCandidates (selection : List SceneNode) : List UniqueImageData :=
  (traverseList [] selection).map Prod.snd

end Part001

/-- Byte-signature file-type sniffing of `sendAllImageDataToUI`, identical in
`part_000` and `part_001`: default `'PNG'`; `FF D8` → `'JPG'`;
`89 50 4E 47` → `'PNG'`; `RIFF` at 0–3 with `WEBP` at 8–11 → `'WebP'`.
An out-of-range `bytes[i]` is `undefined` in JS and compares unequal to every
byte value, which `List.get?` models as `none`. -/
def sniffFileType (bytes : List Nat) : String :=
  if bytes.get? 0 == some 0xFF && bytes.get? 1 == some 0xD8 then "JPG"
  else if bytes.get? 0 == some 0x89 && bytes.get? 1 == some 0x50
       && bytes.get? 2 == some 0x4E && bytes.get? 3 == some 0x47 then "PNG"
  else if bytes.get? 0 == some 0x52 && bytes.get? 1 == some 0x49
       && bytes.get? 2 == some 0x46 && bytes.get? 3 == some 0x46
       && bytes.get? 8 == some 0x57 && bytes.get? 9 == some 0x45
       && bytes.get? 10 == some 0x42 && bytes.get? 11 == some 0x50 then "WebP"
  else "PNG"

/-- The shared progress counter pair (`totalImagesToProcess`,
`processedImageCount`) — the only persistent mutable state of the core. -/
structure ProgressState where
  totalImagesToProcess : Nat
  processedImageCount : Nat
deriving DecidableEq

/-- Setting the counters at the start of a batch of `n` items
(`totalImagesToProcess = n; processedImageCount = 0`). -/
def startBatch (n : Nat) : ProgressState := ⟨n, 0⟩

/-- The distinct `figma.notify` call sites of the handlers, as structured
values carrying exactly the data interpolated into the message text.
`nodeNotFoundGeneric` is the `code.ts` cannot-find notice, whose text
interpolates nothing. -/
inductive Notice where
  | aggregateOptimizeDone (total : Nat)
  | aggregateWebpDone (total : Nat)
  | updateFailed (nodeLabel : String)
  | nodeNotFound (nodeId : String) (nodeType : Option NodeType)
  | nodeNotFoundGeneric
  | optimizationFailed (nodeId : String) (error : String)
  | noImagesError
  | optimizingCount (count : Nat)
deriving DecidableEq

/-- Whether a notice's text names the node it concerns (carries the node's
id, label or reported kind). -/
def Notice.namesNode : Notice → Bool
  | .updateFailed _ => true
  | .nodeNotFound _ _ => true
  | .optimizationFailed _ _ => true
  | _ => false

/-- Outbound controller → UI messages relevant to the claims. -/
inductive UiMessage where
  | triggerDownload (fileName : String) (bytes : List Nat)
      (originalSize optimizedSize : Nat)
      (optimizedWidth optimizedHeight : Option Int)
  | processImageData (imageNodeId : String) (name : String)
deriving DecidableEq

/-- Observable host effects performed by a handler, in program order. -/
inductive Effect where
  | post (m : UiMessage)
  | notifyUser (n : Notice)
  | setFills (nodeId : String) (newFills : List Paint)
  | resizeNode (nodeId : String) (w h : Int)
deriving DecidableEq

/-- The notices of an effect list, in order. -/
def noticesOf (effs : List Effect) : List Notice :=
  effs.filterMap (fun e => match e with
    | Effect.notifyUser n => some n
    | _ => none)

/-- The host-supplied environment of one `image-optimization-complete`
dispatch: the result of `figma.getNodeByIdAsync`, the hash
`figma.createImage(...).hash` would return, and whether any of the
`createImage` / fills write / resize host calls throws. -/
structure HostEnv where
  lookedUpNode : Option SceneNode
  newImageHash : String
  applyThrows : Bool

/-- The `image-optimization-complete` message payload. -/
structure OptCompleteMsg where
  imageNodeId : String
  optimizedBytes : List Nat
  originalSize : Nat
  targetFormat : String
  optimizedWidth : Option Int
  optimizedHeight : Option Int
deriving DecidableEq

/-- The `webp-export-complete` message payload. -/
structure WebpCompleteMsg where
  optimizedBytes : List Nat
  name : String
  originalSize : Nat
  targetFormat : String
  nodeId : String
  optimizedWidth : Option Int
  optimizedHeight : Option Int
deriving DecidableEq

/-- JS truthiness of an optional numeric message field
(`undefined` and `0` are falsy). -/
def intTruthy : Option Int → Bool
  | some v => v != 0
  | none => false

/-- JS truthiness of an optional string field (`undefined` and `''` falsy). -/
def strTruthy : Option String → Bool
  | some s => s != ""
  | none => false

/-- JS `String.prototype.toLowerCase` restricted to the ASCII range (the
only strings lowercased by the sources are format names such as `'WebP'`). -/
def toLowerStr (s : String) : String := String.mk (s.data.map Char.toLower)

/-- `name.replace(/\.[^\/.]+$/, "")`: strip a trailing dot-extension whose
extension part is nonempty and free of further dots and slashes; leave the
name unchanged when no such suffix exists. -/
def stripLastExtension (s : String) : String :=
  let r := s.data.reverse
  let ext := r.takeWhile (fun c => c != '.' && c != '/')
  let rest := r.drop ext.length
  if rest.head? == some '.' && !ext.isEmpty then String.mk rest.tail.reverse
  else s

namespace Part001

/-- `isImageOptimizableNode` of `part_001` on a non-null node: fills present,
not `figma.mixed`, an array; a `resize` method; kind in the allow-list; at
least one image fill with a non-null hash. -/
def optimizableCheck (n : SceneNode) : Bool :=
  match n.fills with
  | Fills.concrete ps =>
      n.hasResize && allowedTypes.contains n.ty && hasImageFill ps
  | _ => false

/-- `isImageOptimizableNode` of `part_001` (takes `BaseNode | null`). -/
def isImageOptimizableNode : Option SceneNode → Bool
  | none => false
  | some n => optimizableCheck n

/-- The `newFills` loop of `part_001`: replace the hash of the **first** fill
with `fill.type === 'IMAGE' && fill.imageHash` truthy (non-null and
nonempty), keep every other fill, and keep all fills after the first match
untouched (`fillUpdatedForNode` flag). -/
def updateFirstImageFill (newHash : String) : List Paint → List Paint
  | [] => []
  | Paint.image (some h) :: rest =>
      if h = "" then Paint.image (some h) :: updateFirstImageFill newHash rest
      else Paint.image (some newHash) :: rest
  | p :: rest => p :: updateFirstImageFill newHash rest

/-- The paint list of a node whose fills passed `optimizableCheck`. -/
def concreteFills (n : SceneNode) : List Paint :=
  match n.fills with
  | Fills.concrete ps => ps
  | _ => []

/-- The `image-optimization-complete` handler of `part_001` (lines 375–435):
only `'PNG'`/`'JPG'` targets are applied in place; on a qualifying node the
handler registers the new image, rewrites the first image fill, resizes the
node when both optimized dimensions are truthy, then increments the counter
and fires the aggregate notice with reset when it reaches the total; a
throwing apply notifies an error naming the node (`node.name || nodeId`);
a missing or non-qualifying node notifies an error naming the node id and
its reported kind.  The counter is untouched on both failure paths. -/
def handleOptimizationComplete (env : HostEnv) (msg : OptCompleteMsg)
    (s : ProgressState) : ProgressState × List Effect :=
  if msg.targetFormat = "PNG" ∨ msg.targetFormat = "JPG" then
    match env.lookedUpNode with
    | some n =>
      if optimizableCheck n then
        if env.applyThrows then
          (s, [Effect.notifyUser (Notice.updateFailed
                (if n.name = "" then msg.imageNodeId else n.name))])
        else
          let fillsE := Effect.setFills n.id
            (updateFirstImageFill env.newImageHash (concreteFills n))
          let resizeE :=
            if intTruthy msg.optimizedWidth && intTruthy msg.optimizedHeight then
              [Effect.resizeNode n.id (msg.optimizedWidth.getD 0)
                (msg.optimizedHeight.getD 0)]
            else []
          let c := s.processedImageCount + 1
          if c = s.totalImagesToProcess then
            (⟨0, 0⟩, fillsE :: resizeE
              ++ [Effect.notifyUser
                    (Notice.aggregateOptimizeDone s.totalImagesToProcess)])
          else
            (⟨s.totalImagesToProcess, c⟩, fillsE :: resizeE)
      else
        (s, [Effect.notifyUser
              (Notice.nodeNotFound msg.imageNodeId (some n.ty))])
    | none =>
      (s, [Effect.notifyUser (Notice.nodeNotFound msg.imageNodeId none)])
  else (s, [])

/-- The download file name computed by the `webp-export-complete` handler:
`name.replace(/\.[^\/.]+$/, "") + '.' + targetFormat.toLowerCase()`. -/
def deriveDownloadFileName (name targetFormat : String) : String :=
  stripLastExtension name ++ "." ++ toLowerStr targetFormat

/-- The `webp-export-complete` handler of `part_001` (lines 348–373): post a
`trigger-download` message with the derived file name, then increment the
shared counter and fire the aggregate WebP notice with reset when it
reaches the total. -/
def handleWebpExportComplete (msg : WebpCompleteMsg) (s : ProgressState) :
    ProgressState × List Effect :=
  let dl := Effect.post (UiMessage.triggerDownload
      (deriveDownloadFileName msg.name msg.targetFormat)
      msg.optimizedBytes msg.originalSize msg.optimizedBytes.length
      msg.optimizedWidth msg.optimizedHeight)
  let c := s.processedImageCount + 1
  if c = s.totalImagesToProcess then
    (⟨0, 0⟩, [dl, Effect.notifyUser
                    (Notice.aggregateWebpDone s.totalImagesToProcess)])
  else
    (⟨s.totalImagesToProcess, c⟩, [dl])

end Part001

namespace CodeTs

/-- The node-kind list accepted inline by the `image-optimization-complete`
handler of `code.ts` (line 195). -/
def applyTypes : List NodeType :=
  [NodeType.rectangle, NodeType.ellipse, NodeType.polygon, NodeType.star,
   NodeType.vector, NodeType.text]

/-- The inline qualification of `code.ts`'s apply step:
`node && 'fills' in node && Array.isArray(node.fills) && type ∈ applyTypes`. -/
def applyQualifies : Option SceneNode → Bool
  | none => false
  | some n =>
      (match n.fills with
        | Fills.concrete _ => true
        | _ => false)
      && applyTypes.contains n.ty

/-- The `newFills` loop of `code.ts` (lines 200–213): for each image fill,
re-run the scanner on the single node and replace the hash when a candidate
matches `(imageNodeId, fill.imageHash)`; every matching image fill is
replaced (no first-only flag in this variant). -/
def replaceFillsViaCandidates (n : SceneNode) (imageNodeId newHash : String)
    (ps : List Paint) : List Paint :=
  ps.map (fun p => match p with
    | Paint.image oh =>
        if (getUniqueImageCandidates [n]).any
            (fun c => c.nodeId == imageNodeId && some c.imageHash == oh) then
          Paint.image (some newHash)
        else p
    | _ => p)

/-- The paint list of a node whose fills passed the inline array test. -/
def concreteFills (n : SceneNode) : List Paint :=
  match n.fills with
  | Fills.concrete ps => ps
  | _ => []

/-- The `image-optimization-complete` handler of `code.ts` (lines 190–229):
no target-format gate and no resize; on a qualifying node it rewrites the
matching image fills, then increments the counter and fires the aggregate
notice with reset at the total; a throwing apply notifies an error naming
the node; a missing or non-qualifying node notifies a **generic** error
that names no node.  The counter is untouched on both failure paths. -/
def handleOptimizationComplete (env : HostEnv) (msg : OptCompleteMsg)
    (s : ProgressState) : ProgressState × List Effect :=
  if applyQualifies env.lookedUpNode then
    match env.lookedUpNode with
    | some n =>
      if env.applyThrows then
        (s, [Effect.notifyUser (Notice.updateFailed
              (if n.name = "" then msg.imageNodeId else n.name))])
      else
        let fillsE := Effect.setFills n.id
          (replaceFillsViaCandidates n msg.imageNodeId env.newImageHash
            (concreteFills n))
        let c := s.processedImageCount + 1
        if c = s.totalImagesToProcess then
          (⟨0, 0⟩, [fillsE, Effect.notifyUser
                      (Notice.aggregateOptimizeDone s.totalImagesToProcess)])
        else
          (⟨s.totalImagesToProcess, c⟩, [fillsE])
    | none => (s, [])
  else
    (s, [Effect.notifyUser Notice.nodeNotFoundGeneric])

/-- The download file name computed per exported image by the
`image-export-complete-from-ui` handler of `code.ts` (line 240):
`fileName + '_' + exportSize + '.' + format.toLowerCase()` — no extension
stripping in this variant. -/
def exportDownloadFileName (fileName exportSize format : String) : String :=
  fileName ++ "_" ++ exportSize ++ "." ++ toLowerStr format

/-- The `image-export-complete-from-ui` handler of `code.ts` (lines 236–249):
one `trigger-download` per entry of `optimizedImages`
(`(format, bytes, originalSize)` triples); it does not touch the counter. -/
def handleImageExportCompleteFromUi (fileName exportSize : String)
    (optimizedImages : List (String × List Nat × Nat)) : List Effect :=
  optimizedImages.map (fun oi =>
    Effect.post (UiMessage.triggerDownload
      (exportDownloadFileName fileName exportSize oi.1)
      oi.2.1 oi.2.2 oi.2.1.length none none))

end CodeTs

/-- An inbound UI event handled by the `part_001` message router that touches
the progress counter. -/
inductive UiEvent where
  | optimizationComplete (env : HostEnv) (msg : OptCompleteMsg)
  | webpExportComplete (msg : WebpCompleteMsg)

namespace Part001

/-- One dispatch of `figma.ui.onmessage` in `part_001`, restricted to the
counter-touching events. -/
def dispatch : UiEvent → ProgressState → ProgressState × List Effect
  | UiEvent.optimizationComplete env msg, s => handleOptimizationComplete env msg s
  | UiEvent.webpExportComplete msg, s => handleWebpExportComplete msg s

end Part001

/-- Running a sequence of events through a handler, threading the counter
state and concatenating the emitted effects — each message is handled to
completion before the next (single cooperative execution context). -/
def runEvents {E : Type} (step : E → ProgressState → ProgressState × List Effect) :
    ProgressState → List E → ProgressState × List Effect
  | s, [] => (s, [])
  | s, e :: es =>
      ((runEvents step (step e s).1 es).1,
       (step e s).2 ++ (runEvents step (step e s).1 es).2)

/-- Outcome of resolving and fetching one candidate's image in
`sendAllImageDataToUI`: `figma.getImageByHash` returns `null`; or the bytes
are fetched; or `getBytesAsync` (or the base64 encoding) throws. -/
inductive FetchOutcome where
  | noImage
  | fetched (bytes : List Nat)
  | fetchThrows
deriving DecidableEq

/-- One record of the `imagesData` array posted in the
`selection-image-data-batch` message. -/
structure ImageDataForUI where
  nodeId : String
  name : String
  imageBytes : List Nat
  width : Int
  height : Int
  fileType : String
  url : String
  imageHash : String
deriving DecidableEq

/-- The cached-branch guard of `sendAllImageDataToUI`:
`candidate.imageBytes && candidate.url` (a `Uint8Array` object is always
truthy; an empty url string is falsy). -/
def candidateCached (c : UniqueImageData) : Bool :=
  c.imageBytes.isSome && strTruthy c.url

namespace Part001

/-- The records one candidate contributes in `sendAllImageDataToUI` of
`part_001` (lines 78–135): reuse cached data; skip the candidate entirely
when the hash resolves to no image (a `console.warn`, nothing pushed); push
the fetched record with a sniffed file type and a data-URI thumbnail; push
an `'UNKNOWN'` placeholder with empty bytes and empty url when the fetch
throws.  `enc` models `figma.base64Encode`, `fetch` the host image store. -/
def emitImageData (enc : List Nat → String) (fetch : String → FetchOutcome)
    (c : UniqueImageData) : List ImageDataForUI :=
  if candidateCached c then
    [⟨c.nodeId, c.nodeName, c.imageBytes.getD [], c.width, c.height,
      c.fileType, c.url.getD "", c.imageHash⟩]
  else
    match fetch c.imageHash with
    | FetchOutcome.noImage => []
    | FetchOutcome.fetched bytes =>
        let ft := sniffFileType bytes
        [⟨c.nodeId, c.nodeName, bytes, c.width, c.height, ft,
          "data:image/" ++ toLowerStr ft ++ ";base64," ++ enc bytes, c.imageHash⟩]
    | FetchOutcome.fetchThrows =>
        [⟨c.nodeId, c.nodeName, [], c.width, c.height, "UNKNOWN", "",
          c.imageHash⟩]

/-- The batch-fetch loop of `sendAllImageDataToUI` in `part_001`: candidates
processed sequentially, one combined `imagesData` array emitted at the end. -/
def sendAllImageDataToUI (enc : List Nat → String)
    (fetch : String → FetchOutcome) : List UniqueImageData → List ImageDataForUI
  | [] => []
  | c :: rest => emitImageData enc fetch c ++ sendAllImageDataToUI enc fetch rest

end Part001

/-- `DEBOUNCE_DELAY_MS` (200 in all variants). -/
def DEBOUNCE_DELAY_MS : Nat := 200

/-- The `selectionchange` listener's effect on the single process-wide timer
handle: `clearTimeout` of any pending timer, then `setTimeout` of a fresh
one due at `now + DEBOUNCE_DELAY_MS` — the previous handle is discarded
whatever it was, and exactly one timer is pending afterwards. -/
def armDebounce (_pending : Option Nat) (now : Nat) : Option Nat :=
  some (now + DEBOUNCE_DELAY_MS)

/-- The instants at which `handleSelectionChange` actually runs, given the
instants of the raw `selectionchange` events in nondecreasing order: each
event (re)arms the timer to fire `DEBOUNCE_DELAY_MS` later, and a pending
timer is cancelled when the next raw event arrives before its deadline. -/
def scanTimes : List Nat → List Nat
  | [] => []
  | t :: rest =>
      match rest with
      | [] => [t + DEBOUNCE_DELAY_MS]
      | t' :: _ =>
          if t' < t + DEBOUNCE_DELAY_MS then scanTimes rest
          else (t + DEBOUNCE_DELAY_MS) :: scanTimes rest

namespace Part001

mutual

/-- The pre-order stream of `(key, candidate)` pairs the `part_001` traversal
offers to the dedup map, before deduplication. -/
def streamNode : SceneNode → List Entry
  | n@(SceneNode.mk _ _ _ _ _ _ _ _ _ cs) => nodeEntries n ++ streamList cs

/-- The pre-order stream of a node list. -/
def streamList : List SceneNode → List Entry
  | [] => []
  | c :: cs => streamNode c ++ streamList cs

end

mutual

/-- All nodes visited by the `part_001` traversal of one node (pre-order). -/
def nodesOf : SceneNode → List SceneNode
  | n@(SceneNode.mk _ _ _ _ _ _ _ _ _ cs) => n :: nodesOfList cs

/-- All nodes visited by the `part_001` traversal of a selection. -/
def nodesOfList : List SceneNode → List SceneNode
  | [] => []
  | c :: cs => nodesOf c ++ nodesOfList cs

end

end Part001

/-- The flat stream of `(key, candidate)` pairs a non-recursive scanner
offers to the dedup map, given its per-node entry function. -/
def flatStream (entriesOf : SceneNode → List Entry) : List SceneNode → List Entry
  | [] => []
  | n :: rest => entriesOf n ++ flatStream entriesOf rest

/-- The `FF D8` JPEG signature test. -/
def jpgSig (bytes : List Nat) : Bool :=
  bytes.get? 0 == some 0xFF && bytes.get? 1 == some 0xD8

/-- The `89 50 4E 47` PNG signature test. -/
def pngSig (bytes : List Nat) : Bool :=
  bytes.get? 0 == some 0x89 && bytes.get? 1 == some 0x50
  && bytes.get? 2 == some 0x4E && bytes.get? 3 == some 0x47

/-- The `RIFF`/`WEBP` WebP signature test. -/
def webpSig (bytes : List Nat) : Bool :=
  bytes.get? 0 == some 0x52 && bytes.get? 1 == some 0x49
  && bytes.get? 2 == some 0x46 && bytes.get? 3 == some 0x46
  && bytes.get? 8 == some 0x57 && bytes.get? 9 == some 0x45
  && bytes.get? 10 == some 0x42 && bytes.get? 11 == some 0x50

theorem sniffFileType_eq (bytes : List Nat) :
    sniffFileType bytes =
      if jpgSig bytes then "JPG"
      else if pngSig bytes then "PNG"
      else if webpSig bytes then "WebP"
      else "PNG" := rfl

/-- C4: the format sniffer infers JPG for bytes beginning `FF D8`, PNG for
bytes beginning `89 50 4E 47`, WebP for bytes with `RIFF` at 0–3 and `WEBP`
at 8–11, and defaults to PNG for any other leading bytes. -/
theorem claim4_format_sniffing (bytes : List Nat) :
    (jpgSig bytes = true → sniffFileType bytes = "JPG") ∧
    (pngSig bytes = true → sniffFileType bytes = "PNG") ∧
    (webpSig bytes = true → sniffFileType bytes = "WebP") ∧
    (jpgSig bytes = false → pngSig bytes = false → webpSig bytes = false →
      sniffFileType bytes = "PNG") := by
  refine ⟨fun h1 => ?_, fun h2 => ?_, fun h3 => ?_, fun h1 h2 h3 => ?_⟩
  · rw [sniffFileType_eq, h1]; rfl
  · have h0 : bytes.get? 0 = some 0x89 := by
      simp only [pngSig, Bool.and_eq_true, beq_iff_eq] at h2
      exact h2.1.1.1
    have h1 : jpgSig bytes = false := by unfold jpgSig; rw [h0]; rfl
    rw [sniffFileType_eq, h1, h2]; rfl
  · have h0 : bytes.get? 0 = some 0x52 := by
      simp only [webpSig, Bool.and_eq_true, beq_iff_eq] at h3
      exact h3.1.1.1.1.1.1.1
    have h1 : jpgSig bytes = false := by unfold jpgSig; rw [h0]; rfl
    have h2 : pngSig bytes = false := by unfold pngSig; rw [h0]; rfl
    rw [sniffFileType_eq, h1, h2, h3]; rfl
  · rw [sniffFileType_eq, h1, h2, h3]; rfl

/-- Witness for C4 at the four concrete byte sequences named by the spec. -/
theorem claim4_format_sniffing_witness :
    sniffFileType [0xFF, 0xD8, 0xFF, 0xE0] = "JPG" ∧
    sniffFileType [0x89, 0x50, 0x4E, 0x47, 0x0D, 0x0A, 0x1A, 0x0A] = "PNG" ∧
    sniffFileType [0x52, 0x49, 0x46, 0x46, 9, 9, 9, 9, 0x57, 0x45, 0x42, 0x50]
      = "WebP" ∧
    sniffFileType [0, 1, 2] = "PNG" :=
  ⟨(claim4_format_sniffing _).1 (by decide),
   (claim4_format_sniffing _).2.1 (by decide),
   (claim4_format_sniffing _).2.2.1 (by decide),
   (claim4_format_sniffing _).2.2.2 (by decide) (by decide) (by decide)⟩

/-- C7: a node whose fill list is the `figma.mixed` sentinel is rejected by
the eligibility test of every scanner variant and contributes no candidate
entry, regardless of its declared kind. -/
theorem claim7_mixed_fill_exclusion (n : SceneNode) (hmixed : n.fills = Fills.mixed) :
    Part001.isImageCapableNode n = false ∧
    Part000.isImageCapableNode n = false ∧
    CodeTs.nodeQualifies n = false ∧
    Part001.nodeEntries n = [] ∧
    Part000.nodeEntries n = [] ∧
    CodeTs.nodeEntries n = [] := by
  have h1 : Part001.isImageCapableNode n = false := by
    unfold Part001.isImageCapableNode; rw [hmixed]
  have h0 : Part000.isImageCapableNode n = false := by
    unfold Part000.isImageCapableNode; rw [hmixed]
  have hc : CodeTs.nodeQualifies n = false := by
    unfold CodeTs.nodeQualifies; rw [hmixed]; rfl
  refine ⟨h1, h0, hc, ?_, ?_, ?_⟩
  · unfold Part001.nodeEntries; rw [h1]; rfl
  · unfold Part000.nodeEntries; rw [h0]; rfl
  · unfold CodeTs.nodeEntries; rw [hc]; rfl

/-- A mixed-fill text node used to witness C7. -/
def mixedNode : SceneNode :=
  SceneNode.mk "7:1" "mixed text" NodeType.text Fills.mixed true 120 true 40 true []

/-- Witness for C7 at a concrete mixed-fill node. -/
theorem claim7_mixed_fill_exclusion_witness :
    Part001.isImageCapableNode mixedNode = false ∧
    Part000.isImageCapableNode mixedNode = false ∧
    CodeTs.nodeQualifies mixedNode = false ∧
    Part001.nodeEntries mixedNode = [] ∧
    Part000.nodeEntries mixedNode = [] ∧
    CodeTs.nodeEntries mixedNode = [] :=
  claim7_mixed_fill_exclusion mixedNode rfl

/-- Consecutive raw events each arrive no earlier than the previous one and
within the debounce window of it (an executable gap test). -/
def burstWithin : List Nat → Bool
  | [] => true
  | [_] => true
  | a :: b :: rest =>
      (decide (a ≤ b) && decide (b - a < DEBOUNCE_DELAY_MS)) && burstWithin (b :: rest)

/-- C5: for a nonempty burst of raw selection-change events whose consecutive
gaps are shorter than the debounce delay, exactly one scan executes, at the
settle delay after the last event; and arming the timer replaces whatever
timer was pending, so at most one (namely exactly one) is pending after
each raw event. -/
theorem claim5_debounce (ts : List Nat) (hne : ts ≠ [])
    (hburst : burstWithin ts = true) :
    scanTimes ts = [ts.getLast hne + DEBOUNCE_DELAY_MS] ∧
    (∀ p now, armDebounce p now = some (now + DEBOUNCE_DELAY_MS)) := by
  refine ⟨?_, fun p now => rfl⟩
  induction ts with
  | nil => exact absurd rfl hne
  | cons t rest ih =>
    cases rest with
    | nil => rfl
    | cons t2 rest2 =>
      have hb : ((decide (t ≤ t2) && decide (t2 - t < DEBOUNCE_DELAY_MS))
          && burstWithin (t2 :: rest2)) = true := hburst
      rw [Bool.and_eq_true, Bool.and_eq_true] at hb
      have hle : t ≤ t2 := of_decide_eq_true hb.1.1
      have hgap : t2 - t < DEBOUNCE_DELAY_MS := of_decide_eq_true hb.1.2
      have hlt : t2 < t + DEBOUNCE_DELAY_MS := by omega
      have hstep : scanTimes (t :: t2 :: rest2) = scanTimes (t2 :: rest2) := by
        show (if t2 < t + DEBOUNCE_DELAY_MS then scanTimes (t2 :: rest2)
              else (t + DEBOUNCE_DELAY_MS) :: scanTimes (t2 :: rest2))
            = scanTimes (t2 :: rest2)
        rw [if_pos hlt]
      rw [hstep, List.getLast_cons (List.cons_ne_nil t2 rest2)]
      exact ih (List.cons_ne_nil t2 rest2) hb.2

/-- Witness for C5: five raw events 50ms apart yield exactly one scan, 200ms
after the last event. -/
theorem claim5_debounce_witness :
    scanTimes [0, 50, 100, 150, 200] = [400] ∧
    armDebounce (some 123) 300 = some (300 + DEBOUNCE_DELAY_MS) := by
  have h := claim5_debounce [0, 50, 100, 150, 200] (by decide) (by decide)
  exact ⟨h.1, h.2 (some 123) 300⟩

/-- C6 (amended): the `part_000` and `part_001` eligibility tests admit a node
only if its declared kind lies in the nine-kind allow-list (the `part_000`
list being the sub-list without COMPONENT/INSTANCE), and a group node is
never admitted by either; the `code.ts` scanner has no kind test at all,
and a group contributes nothing there only because group nodes expose no
fill list in the host API. -/
theorem claim6_allow_list_amended :
    (∀ n : SceneNode, Part001.isImageCapableNode n = true →
      n.ty ∈ Part001.allowedTypes) ∧
    (∀ n : SceneNode, Part000.isImageCapableNode n = true →
      n.ty ∈ Part001.allowedTypes) ∧
    (∀ n : SceneNode, n.ty = NodeType.group →
      Part001.isImageCapableNode n = false ∧
      Part000.isImageCapableNode n = false ∧
      Part001.nodeEntries n = [] ∧
      Part000.nodeEntries n = []) ∧
    (∀ n : SceneNode, n.fills = Fills.absent →
      CodeTs.nodeQualifies n = false ∧ CodeTs.nodeEntries n = []) := by
  have sub : ∀ t : NodeType, t ∈ Part000.allowedTypes → t ∈ Part001.allowedTypes := by
    intro t ht
    cases t <;> first
    | decide
    | exact absurd ht (by decide)
  refine ⟨?_, ?_, ?_, ?_⟩
  · intro n h
    unfold Part001.isImageCapableNode at h
    rcases hf : n.fills with _ | _ | ps <;> rw [hf] at h
    · cases h
    · cases h
    · cases hw : n.hasWidth <;> rw [hw] at h
      · cases h
      · cases hh : n.hasHeight <;> rw [hh] at h
        · cases h
        · have := (Bool.and_eq_true _ _).mp h
          exact List.mem_of_elem_eq_true this.1
  · intro n h
    unfold Part000.isImageCapableNode at h
    rcases hf : n.fills with _ | _ | ps <;> rw [hf] at h
    · cases h
    · cases h
    · cases hw : n.hasWidth <;> rw [hw] at h
      · cases h
      · cases hh : n.hasHeight <;> rw [hh] at h
        · cases h
        · exact sub _ (List.mem_of_elem_eq_true h)
  · intro n hg
    have h1 : Part001.isImageCapableNode n = false := by
      unfold Part001.isImageCapableNode
      rcases hf : n.fills with _ | _ | ps <;> try rfl
      cases hw : n.hasWidth <;> try rfl
      cases hh : n.hasHeight <;> try rfl
      rw [hg]
      rfl
    have h0 : Part000.isImageCapableNode n = false := by
      unfold Part000.isImageCapableNode
      rcases hf : n.fills with _ | _ | ps <;> try rfl
      cases hw : n.hasWidth <;> try rfl
      cases hh : n.hasHeight <;> try rfl
      rw [hg]
      rfl
    refine ⟨h1, h0, ?_, ?_⟩
    · unfold Part001.nodeEntries; rw [h1]; rfl
    · unfold Part000.nodeEntries; rw [h0]; rfl
  · intro n hf
    have hq : CodeTs.nodeQualifies n = false := by
      unfold CodeTs.nodeQualifies; rw [hf]; rfl
    exact ⟨hq, by unfold CodeTs.nodeEntries; rw [hq]; rfl⟩

/-- A SECTION node carrying an image fill: the host API gives sections a
concrete fill list, yet SECTION is in no allow-list of the sources. -/
def sectionNode : SceneNode :=
  SceneNode.mk "6:1" "sec" NodeType.section
    (Fills.concrete [Paint.image (some "hash6")]) true 100 true 80 false []

/-- Counterexample to C6 as stated: the `code.ts` scanner admits a node whose
kind is outside the nine-kind allow-list (a SECTION with an image fill), so
the allow-list restriction does not hold in every variant of the scanner. -/
theorem claim6_counterexample :
    CodeTs.nodeQualifies sectionNode = true ∧
    CodeTs.getUniqueImageCandidates [sectionNode] =
      [mkCandidate sectionNode "hash6"] ∧
    sectionNode.ty ∉ Part001.allowedTypes := by
  refine ⟨rfl, rfl, ?_⟩
  decide

/-- Each candidate contributes at most one record to the emitted batch. -/
theorem emitImageData_length_le (enc : List Nat → String)
    (fetch : String → FetchOutcome) (c : UniqueImageData) :
    (Part001.emitImageData enc fetch c).length ≤ 1 := by
  unfold Part001.emitImageData
  cases hc : candidateCached c
  · cases fetch c.imageHash <;> simp
  · simp

/-- C10: in the `part_001` batch fetch, an uncached candidate whose hash the
host cannot resolve is silently omitted (no placeholder), while an uncached
candidate whose byte fetch throws is replaced by an `'UNKNOWN'` placeholder
with empty bytes and empty url; hence the emitted batch never exceeds the
candidate list in length and is strictly shorter whenever some candidate's
hash fails to resolve. -/
theorem claim10_fetch_failures (enc : List Nat → String)
    (fetch : String → FetchOutcome) :
    (∀ c : UniqueImageData, candidateCached c = false →
      (fetch c.imageHash = FetchOutcome.noImage →
        Part001.sendAllImageDataToUI enc fetch [c] = []) ∧
      (fetch c.imageHash = FetchOutcome.fetchThrows →
        Part001.sendAllImageDataToUI enc fetch [c] =
          [⟨c.nodeId, c.nodeName, [], c.width, c.height, "UNKNOWN", "",
            c.imageHash⟩])) ∧
    (∀ cands : List UniqueImageData,
      (Part001.sendAllImageDataToUI enc fetch cands).length ≤ cands.length) ∧
    (∀ cands : List UniqueImageData,
      (∃ c ∈ cands, candidateCached c = false ∧
        fetch c.imageHash = FetchOutcome.noImage) →
      (Part001.sendAllImageDataToUI enc fetch cands).length < cands.length) := by
  have hlen : ∀ cands : List UniqueImageData,
      (Part001.sendAllImageDataToUI enc fetch cands).length ≤ cands.length := by
    intro cands
    induction cands with
    | nil => simp [Part001.sendAllImageDataToUI]
    | cons c rest ih =>
      have h1 := emitImageData_length_le enc fetch c
      simp only [Part001.sendAllImageDataToUI, List.length_append, List.length_cons]
      omega
  refine ⟨fun c hc => ⟨fun hf => ?_, fun hf => ?_⟩, hlen, fun cands hex => ?_⟩
  · simp [Part001.sendAllImageDataToUI, Part001.emitImageData, hc, hf]
  · simp [Part001.sendAllImageDataToUI, Part001.emitImageData, hc, hf]
  · induction cands with
    | nil => simp at hex
    | cons c rest ih =>
      rcases hex with ⟨d, hd, hdc, hdf⟩
      rcases List.mem_cons.mp hd with rfl | hdrest
      · have : Part001.emitImageData enc fetch d = [] := by
          simp [Part001.emitImageData, hdc, hdf]
        have h2 := hlen rest
        simp only [Part001.sendAllImageDataToUI, this, List.nil_append,
          List.length_cons]
        omega
      · have h1 := emitImageData_length_le enc fetch c
        have h2 := ih ⟨d, hdrest, hdc, hdf⟩
        simp only [Part001.sendAllImageDataToUI, List.length_append,
          List.length_cons] at h2 ⊢
        omega

/-- A base64 oracle used by witnesses. -/
def encStub : List Nat → String := fun _ => "QUJD"

/-- A fetch oracle used by witnesses: `"h1"` resolves to no image, `"h2"`
throws during the byte fetch, everything else yields a JPEG header. -/
def fetchStub : String → FetchOutcome := fun h =>
  if h = "h1" then FetchOutcome.noImage
  else if h = "h2" then FetchOutcome.fetchThrows
  else FetchOutcome.fetched [0xFF, 0xD8]

/-- An uncached candidate whose hash does not resolve. -/
def candMissing : UniqueImageData :=
  { nodeId := "10:1", nodeName := "a", imageHash := "h1",
    width := 10, height := 10, fileType := "PNG" }

/-- An uncached candidate whose byte fetch throws. -/
def candThrowing : UniqueImageData :=
  { nodeId := "10:2", nodeName := "b", imageHash := "h2",
    width := 20, height := 20, fileType := "PNG" }

/-- Witness for C10 at concrete candidates and oracles. -/
theorem claim10_fetch_failures_witness :
    Part001.sendAllImageDataToUI encStub fetchStub [candMissing] = [] ∧
    Part001.sendAllImageDataToUI encStub fetchStub [candThrowing] =
      [⟨"10:2", "b", [], 20, 20, "UNKNOWN", "", "h2"⟩] ∧
    (Part001.sendAllImageDataToUI encStub fetchStub
      [candMissing, candThrowing]).length < 2 :=
  ⟨((claim10_fetch_failures encStub fetchStub).1 candMissing rfl).1 rfl,
   ((claim10_fetch_failures encStub fetchStub).1 candThrowing rfl).2 rfl,
   (claim10_fetch_failures encStub fetchStub).2.2 [candMissing, candThrowing]
     ⟨candMissing, by simp, rfl, rfl⟩⟩

/-- A rectangle node with an image fill, admitted by every variant. -/
def rectNode : SceneNode :=
  SceneNode.mk "1:2" "rect" NodeType.rectangle
    (Fills.concrete [Paint.image (some "hashR")]) true 64 true 64 true []

/-- A group node (no fill list of its own, as in the host API). -/
def groupNode : SceneNode :=
  SceneNode.mk "1:3" "grp" NodeType.group Fills.absent true 64 true 64 false
    [rectNode]

/-- Witness for the amended C6 at concrete nodes. -/
theorem claim6_allow_list_witness :
    rectNode.ty ∈ Part001.allowedTypes ∧
    (Part001.isImageCapableNode groupNode = false ∧
     Part000.isImageCapableNode groupNode = false ∧
     Part001.nodeEntries groupNode = [] ∧
     Part000.nodeEntries groupNode = []) ∧
    (CodeTs.nodeQualifies groupNode = false ∧ CodeTs.nodeEntries groupNode = []) :=
  ⟨claim6_allow_list_amended.1 rectNode rfl,
   claim6_allow_list_amended.2.2.1 groupNode rfl,
   claim6_allow_list_amended.2.2.2 groupNode rfl⟩

theorem noticesOf_append (a b : List Effect) :
    noticesOf (a ++ b) = noticesOf a ++ noticesOf b :=
  List.filterMap_append a b _

/-- A `step` function on the counter state is a counting step for events
satisfying `P`: handling such an event increments `processedImageCount`,
firing the aggregate notice `agg` and resetting both counters to zero
exactly when the incremented count reaches `totalImagesToProcess`. -/
def stepCounts {E : Type} (step : E → ProgressState → ProgressState × List Effect)
    (P : E → Prop) (agg : E → Nat → Notice) : Prop :=
  ∀ e s, P e →
    (step e s).1 = (if s.processedImageCount + 1 = s.totalImagesToProcess
        then ⟨0, 0⟩ else ⟨s.totalImagesToProcess, s.processedImageCount + 1⟩) ∧
    noticesOf (step e s).2 =
      (if s.processedImageCount + 1 = s.totalImagesToProcess
        then [agg e s.totalImagesToProcess] else [])

/-- Running counting events whose number exactly exhausts the remaining
budget of the counter yields the reset state `(0, 0)` and exactly one
aggregate notice, fired by the final event. -/
theorem runEvents_counting {E : Type}
    (step : E → ProgressState → ProgressState × List Effect)
    (P : E → Prop) (agg : E → Nat → Notice) (hstep : stepCounts step P agg) :
    ∀ (es : List E) (elast : E) (s : ProgressState),
      (∀ e ∈ es, P e) → P elast →
      s.processedImageCount + es.length + 1 = s.totalImagesToProcess →
      (runEvents step s (es ++ [elast])).1 = ⟨0, 0⟩ ∧
      noticesOf (runEvents step s (es ++ [elast])).2 =
        [agg elast s.totalImagesToProcess] := by
  intro es
  induction es with
  | nil =>
    intro elast s hP hPl htot
    have h := hstep elast s hPl
    have hcond : s.processedImageCount + 1 = s.totalImagesToProcess := by
      simpa using htot
    simp only [List.nil_append, runEvents, noticesOf_append]
    refine ⟨?_, ?_⟩
    · rw [h.1, if_pos hcond]
    · rw [h.2, if_pos hcond]
      simp [noticesOf]
  | cons e es ih =>
    intro elast s hP hPl htot
    have h := hstep e s (hP e (List.mem_cons_self e es))
    have hcond : ¬ (s.processedImageCount + 1 = s.totalImagesToProcess) := by
      simp only [List.length_cons] at htot
      omega
    have hrec := ih elast ⟨s.totalImagesToProcess, s.processedImageCount + 1⟩
      (fun x hx => hP x (List.mem_cons_of_mem e hx)) hPl
      (by
        show s.processedImageCount + 1 + es.length + 1 = s.totalImagesToProcess
        simp only [List.length_cons] at htot
        omega)
    simp only [List.cons_append, runEvents, noticesOf_append, List.append_eq,
      h.1, h.2, if_neg hcond]
    exact ⟨hrec.1, by rw [hrec.2]; simp⟩

/-- An `image-optimization-complete` event on which the `part_001` apply step
fully succeeds. -/
def optimizeSuccess : UiEvent → Prop
  | UiEvent.optimizationComplete env msg =>
      (msg.targetFormat = "PNG" ∨ msg.targetFormat = "JPG") ∧
      Part001.isImageOptimizableNode env.lookedUpNode = true ∧
      env.applyThrows = false
  | UiEvent.webpExportComplete _ => False

/-- A `part_001` event that increments the shared counter: a fully successful
in-place apply, or any `webp-export-complete` (which always counts). -/
def countingEvent : UiEvent → Prop
  | e@(UiEvent.optimizationComplete _ _) => optimizeSuccess e
  | UiEvent.webpExportComplete _ => True

/-- The aggregate notice the `part_001` router fires when the counter
reaches the total while handling the given event. -/
def aggNoticeFor : UiEvent → Nat → Notice
  | UiEvent.optimizationComplete _ _, t => Notice.aggregateOptimizeDone t
  | UiEvent.webpExportComplete _, t => Notice.aggregateWebpDone t

theorem handleOptimizationComplete_success_step (env : HostEnv)
    (msg : OptCompleteMsg) (s : ProgressState)
    (hfmt : msg.targetFormat = "PNG" ∨ msg.targetFormat = "JPG")
    (hopt : Part001.isImageOptimizableNode env.lookedUpNode = true)
    (hthrow : env.applyThrows = false) :
    (Part001.handleOptimizationComplete env msg s).1 =
      (if s.processedImageCount + 1 = s.totalImagesToProcess
        then ⟨0, 0⟩ else ⟨s.totalImagesToProcess, s.processedImageCount + 1⟩) ∧
    noticesOf (Part001.handleOptimizationComplete env msg s).2 =
      (if s.processedImageCount + 1 = s.totalImagesToProcess
        then [Notice.aggregateOptimizeDone s.totalImagesToProcess] else []) := by
  rcases hn : env.lookedUpNode with _ | n
  · rw [hn] at hopt; exact absurd hopt (by simp [Part001.isImageOptimizableNode])
  · have hcheck : Part001.optimizableCheck n = true := by
      rw [hn] at hopt; exact hopt
    unfold Part001.handleOptimizationComplete
    rw [if_pos hfmt, hn]
    cases hrt : (intTruthy msg.optimizedWidth && intTruthy msg.optimizedHeight) <;>
      by_cases hc : s.processedImageCount + 1 = s.totalImagesToProcess <;>
      simp [hcheck, hthrow, hrt, hc, noticesOf]

theorem handleWebpExportComplete_step (msg : WebpCompleteMsg) (s : ProgressState) :
    (Part001.handleWebpExportComplete msg s).1 =
      (if s.processedImageCount + 1 = s.totalImagesToProcess
        then ⟨0, 0⟩ else ⟨s.totalImagesToProcess, s.processedImageCount + 1⟩) ∧
    noticesOf (Part001.handleWebpExportComplete msg s).2 =
      (if s.processedImageCount + 1 = s.totalImagesToProcess
        then [Notice.aggregateWebpDone s.totalImagesToProcess] else []) := by
  unfold Part001.handleWebpExportComplete
  by_cases hc : s.processedImageCount + 1 = s.totalImagesToProcess <;>
    simp [hc, noticesOf]

theorem dispatch_counting_step :
    stepCounts Part001.dispatch countingEvent aggNoticeFor := by
  intro e s he
  cases e with
  | optimizationComplete env msg =>
      rcases he with ⟨hfmt, hopt, hthrow⟩
      exact handleOptimizationComplete_success_step env msg s hfmt hopt hthrow
  | webpExportComplete msg =>
      exact handleWebpExportComplete_step msg s

theorem dispatch_optimize_step :
    stepCounts Part001.dispatch optimizeSuccess
      (fun _ t => Notice.aggregateOptimizeDone t) := by
  intro e s he
  cases e with
  | optimizationComplete env msg =>
      rcases he with ⟨hfmt, hopt, hthrow⟩
      exact handleOptimizationComplete_success_step env msg s hfmt hopt hthrow
  | webpExportComplete msg => exact absurd he (by simp [optimizeSuccess])

/-- A `(host environment, message)` pair on which the `code.ts` apply step
fully succeeds. -/
def codeSuccess (p : HostEnv × OptCompleteMsg) : Prop :=
  CodeTs.applyQualifies p.1.lookedUpNode = true ∧ p.1.applyThrows = false

theorem codeHandleOptimizationComplete_success_step (p : HostEnv × OptCompleteMsg)
    (s : ProgressState) (hq : CodeTs.applyQualifies p.1.lookedUpNode = true)
    (hthrow : p.1.applyThrows = false) :
    (CodeTs.handleOptimizationComplete p.1 p.2 s).1 =
      (if s.processedImageCount + 1 = s.totalImagesToProcess
        then ⟨0, 0⟩ else ⟨s.totalImagesToProcess, s.processedImageCount + 1⟩) ∧
    noticesOf (CodeTs.handleOptimizationComplete p.1 p.2 s).2 =
      (if s.processedImageCount + 1 = s.totalImagesToProcess
        then [Notice.aggregateOptimizeDone s.totalImagesToProcess] else []) := by
  rcases hn : p.1.lookedUpNode with _ | n
  · rw [hn] at hq; exact absurd hq (by simp [CodeTs.applyQualifies])
  · unfold CodeTs.handleOptimizationComplete
    rw [hn] at hq
    rw [hn]
    by_cases hc : s.processedImageCount + 1 = s.totalImagesToProcess <;>
      simp [hq, hthrow, hc, noticesOf]

theorem codeDispatch_counting_step :
    stepCounts (fun (p : HostEnv × OptCompleteMsg) s =>
        CodeTs.handleOptimizationComplete p.1 p.2 s)
      codeSuccess (fun _ t => Notice.aggregateOptimizeDone t) := by
  intro p s hp
  exact codeHandleOptimizationComplete_success_step p s hp.1 hp.2

/-- One element of the `imagesToOptimize` array of the `optimize-images`
message in `part_001`.  Only the fields the counter claims observe are kept;
the remaining fields (bytes, scale, pixel density, quality, dimensions,
file formats, original size) are forwarded verbatim to the UI and never
read by the controller. -/
structure ImgToOptimize where
  nodeId : String
  name : String
deriving DecidableEq

namespace Part001

/-- The `optimize-images` handler of `part_001` (lines 288–320): an empty
list produces a user error and leaves the counters untouched; otherwise the
counters are set to `(length, 0)`, an in-progress notice is shown and one
`process-image-data` request is posted per image. -/
def handleOptimizeImages (imgs : List ImgToOptimize) (s : ProgressState) :
    ProgressState × List Effect :=
  if imgs.length = 0 then (s, [Effect.notifyUser Notice.noImagesError])
  else
    (⟨imgs.length, 0⟩,
      Effect.notifyUser (Notice.optimizingCount imgs.length) ::
        imgs.map (fun d => Effect.post (UiMessage.processImageData d.nodeId d.name)))

end Part001

/-- C2: dispatching an optimize batch of N candidates sets the counters to
`(N, 0)`, and delivering N fully successful per-image completion events
(in any order — the event list is arbitrary) yields exactly one aggregate
success notice, fired by the final increment, after which both counters are
reset to `(0, 0)`.  Both the `part_001` and the `code.ts` handler satisfy
this. -/
theorem claim2_progress_completion :
    (∀ (imgs : List ImgToOptimize) (s0 : ProgressState) (es : List UiEvent),
      imgs ≠ [] → es.length = imgs.length →
      (∀ e ∈ es, optimizeSuccess e) →
      (Part001.handleOptimizeImages imgs s0).1 = startBatch imgs.length ∧
      (runEvents Part001.dispatch (Part001.handleOptimizeImages imgs s0).1 es).1
        = ⟨0, 0⟩ ∧
      noticesOf
        (runEvents Part001.dispatch (Part001.handleOptimizeImages imgs s0).1 es).2
        = [Notice.aggregateOptimizeDone imgs.length]) ∧
    (∀ (N : Nat) (evs : List (HostEnv × OptCompleteMsg)),
      0 < N → evs.length = N → (∀ p ∈ evs, codeSuccess p) →
      (runEvents (fun p s => CodeTs.handleOptimizationComplete p.1 p.2 s)
          (startBatch N) evs).1 = ⟨0, 0⟩ ∧
      noticesOf (runEvents (fun p s => CodeTs.handleOptimizationComplete p.1 p.2 s)
          (startBatch N) evs).2 = [Notice.aggregateOptimizeDone N]) := by
  constructor
  · intro imgs s0 es hne hlen hP
    have hlen0 : ¬ (imgs.length = 0) := by
      intro h
      exact hne (List.length_eq_zero.mp h)
    have hstart : (Part001.handleOptimizeImages imgs s0).1 = startBatch imgs.length := by
      unfold Part001.handleOptimizeImages
      rw [if_neg hlen0]
      rfl
    refine ⟨hstart, ?_⟩
    rw [hstart]
    rcases List.eq_nil_or_concat es with rfl | ⟨front, last, rfl⟩
    · exact absurd hlen.symm (by simpa using hlen0)
    · rw [List.concat_eq_append] at hP hlen ⊢
      have hfront : ∀ e ∈ front, optimizeSuccess e :=
        fun e he => hP e (List.mem_append_left _ he)
      have hlast : optimizeSuccess last := hP last (by simp)
      have htot : (startBatch imgs.length).processedImageCount + front.length + 1
          = (startBatch imgs.length).totalImagesToProcess := by
        show 0 + front.length + 1 = imgs.length
        simp only [List.length_append, List.length_cons, List.length_nil] at hlen
        omega
      have h := runEvents_counting Part001.dispatch optimizeSuccess
        (fun _ t => Notice.aggregateOptimizeDone t) dispatch_optimize_step
        front last (startBatch imgs.length) hfront hlast htot
      exact ⟨h.1, by rw [h.2]; rfl⟩
  · intro N evs hN hlen hP
    rcases List.eq_nil_or_concat evs with rfl | ⟨front, last, rfl⟩
    · exact absurd hlen (by simpa using Nat.ne_of_lt hN)
    · rw [List.concat_eq_append] at hP hlen ⊢
      have hfront : ∀ p ∈ front, codeSuccess p :=
        fun p hp => hP p (List.mem_append_left _ hp)
      have hlast : codeSuccess last := hP last (by simp)
      have htot : (startBatch N).processedImageCount + front.length + 1
          = (startBatch N).totalImagesToProcess := by
        show 0 + front.length + 1 = N
        simp only [List.length_append, List.length_cons, List.length_nil] at hlen
        omega
      have h := runEvents_counting
        (fun (p : HostEnv × OptCompleteMsg) s =>
          CodeTs.handleOptimizationComplete p.1 p.2 s)
        codeSuccess (fun _ t => Notice.aggregateOptimizeDone t)
        codeDispatch_counting_step front last (startBatch N) hfront hlast htot
      exact ⟨h.1, by rw [h.2]; rfl⟩

/-- A completion message used by witnesses. -/
def optMsgStub (nid : String) : OptCompleteMsg :=
  { imageNodeId := nid, optimizedBytes := [1, 2], originalSize := 9,
    targetFormat := "PNG", optimizedWidth := some 32, optimizedHeight := some 32 }

/-- A host environment in which the apply step fully succeeds. -/
def successEnv : HostEnv :=
  { lookedUpNode := some rectNode, newImageHash := "newH", applyThrows := false }

/-- A host environment in which the fills write / resize throws. -/
def throwEnv : HostEnv :=
  { lookedUpNode := some rectNode, newImageHash := "newH", applyThrows := true }

/-- A fully successful in-place completion event. -/
def optEvent (nid : String) : UiEvent :=
  UiEvent.optimizationComplete successEnv (optMsgStub nid)

theorem optEvent_success (nid : String) : optimizeSuccess (optEvent nid) :=
  ⟨Or.inl rfl, rfl, rfl⟩

/-- Witness for C2: a batch of two images followed by two successful
completion events, in both variants. -/
theorem claim2_progress_completion_witness :
    ((Part001.handleOptimizeImages [⟨"n1", "a"⟩, ⟨"n2", "b"⟩] ⟨5, 5⟩).1
      = startBatch 2 ∧
    (runEvents Part001.dispatch
        (Part001.handleOptimizeImages [⟨"n1", "a"⟩, ⟨"n2", "b"⟩] ⟨5, 5⟩).1
        [optEvent "n1", optEvent "n2"]).1 = ⟨0, 0⟩ ∧
    noticesOf (runEvents Part001.dispatch
        (Part001.handleOptimizeImages [⟨"n1", "a"⟩, ⟨"n2", "b"⟩] ⟨5, 5⟩).1
        [optEvent "n1", optEvent "n2"]).2
      = [Notice.aggregateOptimizeDone 2]) ∧
    ((runEvents (fun p s => CodeTs.handleOptimizationComplete p.1 p.2 s)
        (startBatch 2) [(successEnv, optMsgStub "n1"), (successEnv, optMsgStub "n2")]).1
      = ⟨0, 0⟩ ∧
    noticesOf (runEvents (fun p s => CodeTs.handleOptimizationComplete p.1 p.2 s)
        (startBatch 2) [(successEnv, optMsgStub "n1"), (successEnv, optMsgStub "n2")]).2
      = [Notice.aggregateOptimizeDone 2]) := by
  constructor
  · exact claim2_progress_completion.1 [⟨"n1", "a"⟩, ⟨"n2", "b"⟩] ⟨5, 5⟩
      [optEvent "n1", optEvent "n2"] (by simp) rfl
      (by
        intro e he
        rcases List.mem_cons.mp he with rfl | he2
        · exact optEvent_success "n1"
        · rcases List.mem_cons.mp he2 with rfl | h3
          · exact optEvent_success "n2"
          · cases h3)
  · exact claim2_progress_completion.2 2
      [(successEnv, optMsgStub "n1"), (successEnv, optMsgStub "n2")]
      (by decide) rfl
      (by
        intro p hp
        rcases List.mem_cons.mp hp with rfl | hp2
        · exact ⟨rfl, rfl⟩
        · rcases List.mem_cons.mp hp2 with rfl | h3
          · exact ⟨rfl, rfl⟩
          · cases h3)

theorem optimizeSuccess_counting (e : UiEvent) (h : optimizeSuccess e) :
    countingEvent e := by
  cases e with
  | optimizationComplete env msg => exact h
  | webpExportComplete msg => trivial

/-- C9: the `webp-export-complete` handler first posts the trigger-download
message and then increments the same counter pair the in-place optimize
path uses, firing the aggregate completion notice and resetting both
counters to `(0, 0)` exactly when its increment reaches the total — so a
batch of N whose last completion arrives on the export path ends with the
aggregate notice fired by that export completion. -/
theorem claim9_webp_export_counter :
    (∀ (msg : WebpCompleteMsg) (s : ProgressState),
      (Part001.handleWebpExportComplete msg s).2.head? =
        some (Effect.post (UiMessage.triggerDownload
          (Part001.deriveDownloadFileName msg.name msg.targetFormat)
          msg.optimizedBytes msg.originalSize msg.optimizedBytes.length
          msg.optimizedWidth msg.optimizedHeight)) ∧
      (s.processedImageCount + 1 = s.totalImagesToProcess →
        (Part001.handleWebpExportComplete msg s).1 = ⟨0, 0⟩ ∧
        noticesOf (Part001.handleWebpExportComplete msg s).2 =
          [Notice.aggregateWebpDone s.totalImagesToProcess]) ∧
      (s.processedImageCount + 1 ≠ s.totalImagesToProcess →
        (Part001.handleWebpExportComplete msg s).1 =
          ⟨s.totalImagesToProcess, s.processedImageCount + 1⟩ ∧
        noticesOf (Part001.handleWebpExportComplete msg s).2 = [])) ∧
    (∀ (N : Nat) (front : List UiEvent) (wmsg : WebpCompleteMsg),
      (∀ e ∈ front, optimizeSuccess e) → front.length + 1 = N →
      (runEvents Part001.dispatch (startBatch N)
          (front ++ [UiEvent.webpExportComplete wmsg])).1 = ⟨0, 0⟩ ∧
      noticesOf (runEvents Part001.dispatch (startBatch N)
          (front ++ [UiEvent.webpExportComplete wmsg])).2 =
        [Notice.aggregateWebpDone N]) := by
  constructor
  · intro msg s
    refine ⟨?_, fun hc => ?_, fun hc => ?_⟩
    · unfold Part001.handleWebpExportComplete
      by_cases hc : s.processedImageCount + 1 = s.totalImagesToProcess <;>
        simp [hc]
    · have h := handleWebpExportComplete_step msg s
      rw [if_pos hc, if_pos hc] at h
      exact h
    · have h := handleWebpExportComplete_step msg s
      rw [if_neg hc, if_neg hc] at h
      exact h
  · intro N front wmsg hfront hlen
    have h := runEvents_counting Part001.dispatch countingEvent aggNoticeFor
      dispatch_counting_step front (UiEvent.webpExportComplete wmsg)
      (startBatch N)
      (fun e he => optimizeSuccess_counting e (hfront e he)) trivial
      (by show 0 + front.length + 1 = N; omega)
    exact ⟨h.1, by rw [h.2]; rfl⟩

/-- A `webp-export-complete` message used by witnesses. -/
def webpMsgStub : WebpCompleteMsg :=
  { optimizedBytes := [3, 4, 5], name := "photo.png", originalSize := 99,
    targetFormat := "WebP", nodeId := "n9",
    optimizedWidth := some 10, optimizedHeight := some 10 }

/-- Witness for C9: a batch of two in which one successful in-place apply is
followed by one export completion, which fires the aggregate notice. -/
theorem claim9_webp_export_counter_witness :
    ((Part001.handleWebpExportComplete webpMsgStub ⟨2, 1⟩).1 = ⟨0, 0⟩ ∧
      noticesOf (Part001.handleWebpExportComplete webpMsgStub ⟨2, 1⟩).2 =
        [Notice.aggregateWebpDone 2]) ∧
    ((runEvents Part001.dispatch (startBatch 2)
        [optEvent "n1", UiEvent.webpExportComplete webpMsgStub]).1 = ⟨0, 0⟩ ∧
      noticesOf (runEvents Part001.dispatch (startBatch 2)
        [optEvent "n1", UiEvent.webpExportComplete webpMsgStub]).2 =
        [Notice.aggregateWebpDone 2]) := by
  constructor
  · exact ((claim9_webp_export_counter.1 webpMsgStub ⟨2, 1⟩).2.1 rfl)
  · exact claim9_webp_export_counter.2 2 [optEvent "n1"] webpMsgStub
      (by
        intro e he
        rcases List.mem_cons.mp he with rfl | h2
        · exact optEvent_success "n1"
        · cases h2)
      rfl

/-- C3 (amended): on every per-image apply failure the handler returns
normally with the counter untouched (the batch continues) and emits one
user-visible error notice; in `part_001` that notice names the node on both
failure paths (id and reported kind when the node cannot be found or
re-qualified, name-or-id when the apply throws), and in `code.ts` the
throw-path notice names the node while the cannot-find notice is a fixed
message naming no node. -/
theorem claim3_apply_failure_amended :
    (∀ (env : HostEnv) (msg : OptCompleteMsg) (s : ProgressState),
      (msg.targetFormat = "PNG" ∨ msg.targetFormat = "JPG") →
      Part001.isImageOptimizableNode env.lookedUpNode = false →
      Part001.handleOptimizationComplete env msg s =
        (s, [Effect.notifyUser (Notice.nodeNotFound msg.imageNodeId
              (env.lookedUpNode.map SceneNode.ty))]) ∧
      Notice.namesNode (Notice.nodeNotFound msg.imageNodeId
        (env.lookedUpNode.map SceneNode.ty)) = true) ∧
    (∀ (env : HostEnv) (msg : OptCompleteMsg) (s : ProgressState) (n : SceneNode),
      (msg.targetFormat = "PNG" ∨ msg.targetFormat = "JPG") →
      env.lookedUpNode = some n → Part001.optimizableCheck n = true →
      env.applyThrows = true →
      Part001.handleOptimizationComplete env msg s =
        (s, [Effect.notifyUser (Notice.updateFailed
              (if n.name = "" then msg.imageNodeId else n.name))]) ∧
      Notice.namesNode (Notice.updateFailed
        (if n.name = "" then msg.imageNodeId else n.name)) = true) ∧
    (∀ (env : HostEnv) (msg : OptCompleteMsg) (s : ProgressState) (n : SceneNode),
      env.lookedUpNode = some n → CodeTs.applyQualifies (some n) = true →
      env.applyThrows = true →
      CodeTs.handleOptimizationComplete env msg s =
        (s, [Effect.notifyUser (Notice.updateFailed
              (if n.name = "" then msg.imageNodeId else n.name))]) ∧
      Notice.namesNode (Notice.updateFailed
        (if n.name = "" then msg.imageNodeId else n.name)) = true) ∧
    (∀ (env : HostEnv) (msg : OptCompleteMsg) (s : ProgressState),
      CodeTs.applyQualifies env.lookedUpNode = false →
      CodeTs.handleOptimizationComplete env msg s =
        (s, [Effect.notifyUser Notice.nodeNotFoundGeneric])) := by
  refine ⟨?_, ?_, ?_, ?_⟩
  · intro env msg s hfmt hopt
    refine ⟨?_, rfl⟩
    unfold Part001.handleOptimizationComplete
    rw [if_pos hfmt]
    rcases hn : env.lookedUpNode with _ | n
    · rfl
    · have hcheck : Part001.optimizableCheck n = false := by
        rw [hn] at hopt
        exact hopt
      simp [hcheck]
  · intro env msg s n hfmt hn hcheck hthrow
    refine ⟨?_, rfl⟩
    unfold Part001.handleOptimizationComplete
    rw [if_pos hfmt, hn]
    simp [hcheck, hthrow]
  · intro env msg s n hn hq hthrow
    refine ⟨?_, rfl⟩
    unfold CodeTs.handleOptimizationComplete
    rw [hn]
    simp [hq, hthrow]
  · intro env msg s hq
    unfold CodeTs.handleOptimizationComplete
    rcases hn : env.lookedUpNode with _ | n
    · rw [hn] at hq
      simp [hq]
    · rw [hn] at hq
      simp [hq]

/-- Counterexample to C3 as stated: when the `code.ts` handler cannot find
the target node, the error notice it emits is the fixed message
`'오류: 최적화된 이미지를 적용할 노드를 찾을 수 없습니다.'`, which
interpolates nothing — no notice naming the node is emitted, though the
counter is indeed untouched. -/
theorem claim3_counterexample :
    CodeTs.handleOptimizationComplete
        { lookedUpNode := none, newImageHash := "x", applyThrows := false }
        (optMsgStub "gone") ⟨3, 1⟩ =
      (⟨3, 1⟩, [Effect.notifyUser Notice.nodeNotFoundGeneric]) ∧
    Notice.namesNode Notice.nodeNotFoundGeneric = false :=
  ⟨rfl, rfl⟩

/-- Witness for the amended C3 on all four failure paths at concrete inputs. -/
theorem claim3_apply_failure_witness :
    (Part001.handleOptimizationComplete
        { lookedUpNode := none, newImageHash := "x", applyThrows := false }
        (optMsgStub "gone") ⟨3, 1⟩ =
      (⟨3, 1⟩, [Effect.notifyUser (Notice.nodeNotFound "gone" none)])) ∧
    (Part001.handleOptimizationComplete throwEnv (optMsgStub "n1") ⟨3, 1⟩ =
      (⟨3, 1⟩, [Effect.notifyUser (Notice.updateFailed "rect")])) ∧
    (CodeTs.handleOptimizationComplete throwEnv (optMsgStub "n1") ⟨3, 1⟩ =
      (⟨3, 1⟩, [Effect.notifyUser (Notice.updateFailed "rect")])) ∧
    (CodeTs.handleOptimizationComplete
        { lookedUpNode := none, newImageHash := "x", applyThrows := false }
        (optMsgStub "gone") ⟨3, 1⟩ =
      (⟨3, 1⟩, [Effect.notifyUser Notice.nodeNotFoundGeneric])) := by
  refine ⟨?_, ?_, ?_, ?_⟩
  · exact ((claim3_apply_failure_amended.1
      { lookedUpNode := none, newImageHash := "x", applyThrows := false }
      (optMsgStub "gone") ⟨3, 1⟩ (Or.inl rfl) rfl).1)
  · exact ((claim3_apply_failure_amended.2.1 throwEnv (optMsgStub "n1") ⟨3, 1⟩
      rectNode (Or.inl rfl) rfl rfl rfl).1)
  · exact ((claim3_apply_failure_amended.2.2.1 throwEnv (optMsgStub "n1") ⟨3, 1⟩
      rectNode rfl rfl rfl).1)
  · exact (claim3_apply_failure_amended.2.2.2
      { lookedUpNode := none, newImageHash := "x", applyThrows := false }
      (optMsgStub "gone") ⟨3, 1⟩ rfl)

theorem takeWhile_append_all {p : Char → Bool} :
    ∀ (xs : List Char) (y : Char) (ys : List Char),
      (∀ x ∈ xs, p x = true) → p y = false →
      (xs ++ y :: ys).takeWhile p = xs := by
  intro xs
  induction xs with
  | nil =>
    intro y ys hall hy
    simp [List.takeWhile_cons, hy]
  | cons a as ih =>
    intro y ys hall hy
    have ha := hall a (List.mem_cons_self a as)
    simp only [List.cons_append, List.takeWhile_cons, ha, if_true]
    rw [ih y ys (fun x hx => hall x (List.mem_cons_of_mem a hx)) hy]

/-- The extension-carrying case of the regex strip: a name of the form
`base ++ "." ++ ext` with `ext` nonempty and free of dots and slashes
strips back to `base`. -/
theorem stripLastExtension_strips (base ext : String) (hne : ext ≠ "")
    (hext : ∀ c ∈ ext.data, c ≠ '.' ∧ c ≠ '/') :
    stripLastExtension (base ++ "." ++ ext) = base := by
  have hdata : (base ++ "." ++ ext).data = base.data ++ '.' :: ext.data := by
    rw [String.data_append, String.data_append]
    show base.data ++ ['.'] ++ ext.data = base.data ++ '.' :: ext.data
    rw [List.append_assoc]
    rfl
  have hrev : (base ++ "." ++ ext).data.reverse =
      ext.data.reverse ++ '.' :: base.data.reverse := by
    rw [hdata, List.reverse_append, List.reverse_cons, List.append_assoc]
    simp
  have hall : ∀ x ∈ ext.data.reverse, (x != '.' && x != '/') = true := by
    intro x hx
    have := hext x (List.mem_reverse.mp hx)
    simp [this.1, this.2]
  have htake : ((base ++ "." ++ ext).data.reverse).takeWhile
      (fun c => c != '.' && c != '/') = ext.data.reverse := by
    rw [hrev]
    exact takeWhile_append_all ext.data.reverse '.' base.data.reverse hall (by simp)
  have hdrop : ((base ++ "." ++ ext).data.reverse).drop ext.data.reverse.length =
      '.' :: base.data.reverse := by
    rw [hrev]
    exact List.drop_left ext.data.reverse ('.' :: base.data.reverse)
  have hextne : ext.data ≠ [] := by
    intro h
    exact hne (congrArg String.mk h)
  unfold stripLastExtension
  simp only [htake, hdrop]
  rw [if_pos]
  · simp
  · simp [List.isEmpty_iff, hextne]

/-- The no-extension case: a name containing no dot is left unchanged. -/
theorem stripLastExtension_id (name : String) (hnd : '.' ∉ name.data) :
    stripLastExtension name = name := by
  unfold stripLastExtension
  rcases hd : (name.data.reverse.drop
      ((name.data.reverse.takeWhile (fun c => c != '.' && c != '/')).length))
    with _ | ⟨c, pre⟩
  · simp [hd]
  · have hc : c ≠ '.' := by
      intro hcd
      apply hnd
      have hcin : c ∈ name.data.reverse := by
        have : c ∈ c :: pre := List.mem_cons_self c pre
        rw [← hd] at this
        exact List.mem_of_mem_drop this
      rw [hcd] at hcin
      exact List.mem_reverse.mp hcin
    simp [hd, hc]

/-- C8 (amended): in the `webp-export-complete` handlers the download file
name is the original name with any existing dot-extension stripped,
followed by a dot and the lowercased target format — in particular
`"photo.png"` with target `WebP` yields `"photo.webp"`; the
`image-export-complete-from-ui` handler of `code.ts` instead computes
`fileName_exportSize.format`, with no extension stripping. -/
theorem claim8_filename_amended :
    (∀ (base ext fmt : String), ext ≠ "" →
      (∀ c ∈ ext.data, c ≠ '.' ∧ c ≠ '/') →
      Part001.deriveDownloadFileName (base ++ "." ++ ext) fmt =
        base ++ "." ++ toLowerStr fmt) ∧
    (∀ (name fmt : String), '.' ∉ name.data →
      Part001.deriveDownloadFileName name fmt = name ++ "." ++ toLowerStr fmt) ∧
    Part001.deriveDownloadFileName "photo.png" "WebP" = "photo.webp" := by
  refine ⟨?_, ?_, ?_⟩
  · intro base ext fmt hne hext
    unfold Part001.deriveDownloadFileName
    rw [stripLastExtension_strips base ext hne hext]
  · intro name fmt hnd
    unfold Part001.deriveDownloadFileName
    rw [stripLastExtension_id name hnd]
  · rfl

/-- Counterexample to C8 as stated: the download triggered by the `code.ts`
alternate-format export-completion handler carries file name
`"photo.png_2x.webp"`, not the stripped `"photo.webp"`. -/
theorem claim8_counterexample :
    CodeTs.handleImageExportCompleteFromUi "photo.png" "2x" [("WebP", [7, 8], 50)] =
      [Effect.post (UiMessage.triggerDownload "photo.png_2x.webp" [7, 8] 50 2
        none none)] ∧
    ("photo.png_2x.webp" : String) ≠ "photo.webp" := by
  exact ⟨rfl, by decide⟩

/-- Witness for the amended C8 at concrete names and formats. -/
theorem claim8_filename_witness :
    Part001.deriveDownloadFileName ("photo" ++ "." ++ "png") "WebP" =
      "photo" ++ "." ++ toLowerStr "WebP" ∧
    Part001.deriveDownloadFileName "photo" "JPG" =
      "photo" ++ "." ++ toLowerStr "JPG" ∧
    Part001.deriveDownloadFileName "photo.png" "WebP" = "photo.webp" :=
  ⟨claim8_filename_amended.1 "photo" "png" "WebP" (by decide)
      (by decide),
   claim8_filename_amended.2.1 "photo" "JPG" (by decide),
   claim8_filename_amended.2.2⟩

/-- The keys of the dedup map, in insertion order. -/
def keysOf (m : List Entry) : List String := m.map Prod.fst

theorem mapHasKey_iff (m : List Entry) (k : String) :
    mapHasKey m k = true ↔ k ∈ keysOf m := by
  simp [mapHasKey, keysOf, List.any_eq_true]

theorem keysOf_mapInsert (m : List Entry) (k : String) (v : UniqueImageData) :
    keysOf (mapInsert m k v) = if mapHasKey m k then keysOf m else keysOf m ++ [k] := by
  unfold mapInsert
  split
  · rfl
  · simp [keysOf]

theorem mem_keysOf_mapInsert (m : List Entry) (k : String) (v : UniqueImageData)
    (k' : String) :
    k' ∈ keysOf (mapInsert m k v) ↔ k' ∈ keysOf m ∨ k' = k := by
  rw [keysOf_mapInsert]
  split
  · rename_i hk
    rw [mapHasKey_iff] at hk
    constructor
    · exact Or.inl
    · rintro (h | rfl)
      · exact h
      · exact hk
  · simp

theorem nodup_keysOf_mapInsert (m : List Entry) (k : String) (v : UniqueImageData)
    (hnd : (keysOf m).Nodup) : (keysOf (mapInsert m k v)).Nodup := by
  rw [keysOf_mapInsert]
  split
  · exact hnd
  · rename_i hk
    rw [mapHasKey_iff] at hk
    simp only [List.nodup_append, List.nodup_cons, List.nodup_nil]
    refine ⟨hnd, by simp, ?_⟩
    intro x hx hxk
    rw [List.mem_singleton] at hxk
    subst hxk
    exact hk hx

theorem mem_mapInsert_sub (m : List Entry) (k : String) (v : UniqueImageData)
    (x : Entry) (hx : x ∈ mapInsert m k v) : x ∈ m ∨ x = (k, v) := by
  unfold mapInsert at hx
  split at hx
  · exact Or.inl hx
  · rcases List.mem_append.mp hx with h | h
    · exact Or.inl h
    · exact Or.inr (List.mem_singleton.mp h)

theorem insertEntries_cons (m : List Entry) (e : Entry) (es : List Entry) :
    insertEntries m (e :: es) = insertEntries (mapInsert m e.1 e.2) es := rfl

theorem insertEntries_append (m : List Entry) (a b : List Entry) :
    insertEntries m (a ++ b) = insertEntries (insertEntries m a) b :=
  List.foldl_append _ _ a b

theorem mem_keysOf_insertEntries (es : List Entry) :
    ∀ (m : List Entry) (k : String),
      k ∈ keysOf (insertEntries m es) ↔ k ∈ keysOf m ∨ k ∈ keysOf es := by
  induction es with
  | nil => intro m k; simp [insertEntries, keysOf]
  | cons e es ih =>
    intro m k
    rw [insertEntries_cons, ih, mem_keysOf_mapInsert]
    simp only [keysOf, List.map_cons, List.mem_cons]
    tauto

theorem nodup_keysOf_insertEntries (es : List Entry) :
    ∀ (m : List Entry), (keysOf m).Nodup → (keysOf (insertEntries m es)).Nodup := by
  induction es with
  | nil => intro m h; exact h
  | cons e es ih =>
    intro m h
    rw [insertEntries_cons]
    exact ih _ (nodup_keysOf_mapInsert m e.1 e.2 h)

theorem mem_insertEntries_sub (es : List Entry) :
    ∀ (m : List Entry) (x : Entry), x ∈ insertEntries m es → x ∈ m ∨ x ∈ es := by
  induction es with
  | nil => intro m x hx; exact Or.inl hx
  | cons e es ih =>
    intro m x hx
    rw [insertEntries_cons] at hx
    rcases ih _ x hx with h | h
    · rcases mem_mapInsert_sub m e.1 e.2 x h with h2 | rfl
      · exact Or.inl h2
      · exact Or.inr (by simp)
    · exact Or.inr (List.mem_cons_of_mem e h)

theorem countP_key_eq_one (m : List Entry) (hnd : (keysOf m).Nodup) (k : String)
    (hmem : k ∈ keysOf m) : m.countP (fun e => e.1 == k) = 1 := by
  have h1 : m.countP (fun e => e.1 == k) = (keysOf m).countP (fun x => x == k) := by
    rw [keysOf, List.countP_map]
    rfl
  rw [h1, ← List.count_eq_countP, List.count_eq_one_of_mem hnd hmem]

/-- A string free of the underscore separator used by `uniqueKey`. -/
def noUnderscore (s : String) : Prop := '_' ∉ s.data

theorem sep_append_inj :
    ∀ (xs zs ys ws : List Char), '_' ∉ xs → '_' ∉ zs →
      xs ++ '_' :: ys = zs ++ '_' :: ws → xs = zs ∧ ys = ws := by
  intro xs
  induction xs with
  | nil =>
    intro zs ys ws hx hz h
    cases zs with
    | nil =>
      simp only [List.nil_append, List.cons.injEq] at h
      exact ⟨rfl, h.2⟩
    | cons z zs2 =>
      simp only [List.nil_append, List.cons_append, List.cons.injEq] at h
      exact absurd (h.1 ▸ List.mem_cons_self z zs2) hz
  | cons x xs2 ih =>
    intro zs ys ws hx hz h
    cases zs with
    | nil =>
      simp only [List.cons_append, List.nil_append, List.cons.injEq] at h
      exact absurd (h.1.symm ▸ List.mem_cons_self x xs2) hx
    | cons z zs2 =>
      simp only [List.cons_append, List.cons.injEq] at h
      have hrec := ih zs2 ys ws
        (fun hm => hx (List.mem_cons_of_mem x hm))
        (fun hm => hz (List.mem_cons_of_mem z hm)) h.2
      exact ⟨by rw [h.1, hrec.1], hrec.2⟩

/-- With an underscore-free left component, the `nodeId_imageHash` key
determines both components. -/
theorem uniqueKey_inj (a b c d : String) (ha : noUnderscore a)
    (hc : noUnderscore c) (h : uniqueKey a b = uniqueKey c d) : a = c ∧ b = d := by
  have hd : a.data ++ '_' :: b.data = c.data ++ '_' :: d.data := by
    have h2 := congrArg String.data h
    rw [uniqueKey, uniqueKey, String.data_append, String.data_append,
      String.data_append, String.data_append] at h2
    rw [List.append_assoc, List.append_assoc] at h2
    exact h2
  have hres := sep_append_inj a.data c.data b.data d.data ha hc hd
  exact ⟨congrArg String.mk hres.1, congrArg String.mk hres.2⟩

mutual

theorem traverse_eq_insert (m : List Entry) (n : SceneNode) :
    Part001.traverse m n = insertEntries m (Part001.streamNode n) := by
  cases n with
  | mk i nm ty f hw w hh h hr cs =>
    show Part001.traverseList
        (insertEntries m (Part001.nodeEntries (SceneNode.mk i nm ty f hw w hh h hr cs))) cs
      = insertEntries m (Part001.streamNode (SceneNode.mk i nm ty f hw w hh h hr cs))
    rw [traverseList_eq_insert]
    show insertEntries
        (insertEntries m (Part001.nodeEntries (SceneNode.mk i nm ty f hw w hh h hr cs)))
        (Part001.streamList cs) = _
    rw [← insertEntries_append]
    rfl

theorem traverseList_eq_insert (m : List Entry) (ns : List SceneNode) :
    Part001.traverseList m ns = insertEntries m (Part001.streamList ns) := by
  cases ns with
  | nil => rfl
  | cons c cs =>
    show Part001.traverseList (Part001.traverse m c) cs = _
    rw [traverseList_eq_insert, traverse_eq_insert, ← insertEntries_append]
    rfl

end

mutual

theorem mem_streamNode_shape (n : SceneNode) (e : Entry)
    (he : e ∈ Part001.streamNode n) :
    ∃ n2 h2, n2 ∈ Part001.nodesOf n ∧ Part001.isImageCapableNode n2 = true ∧
      h2 ∈ fillsImageHashes n2.fills ∧ e = (uniqueKey n2.id h2, mkCandidate n2 h2) := by
  cases n with
  | mk i nm ty f hw w hh h hr cs =>
    have he2 : e ∈ Part001.nodeEntries (SceneNode.mk i nm ty f hw w hh h hr cs)
        ++ Part001.streamList cs := he
    rcases List.mem_append.mp he2 with h3 | h3
    · unfold Part001.nodeEntries at h3
      split at h3
      · rename_i hcap
        rcases List.mem_map.mp h3 with ⟨hsh, hmem, rfl⟩
        exact ⟨SceneNode.mk i nm ty f hw w hh h hr cs, hsh,
          List.mem_cons_self _ _, hcap, hmem, rfl⟩
      · cases h3
    · rcases mem_streamList_shape cs e h3 with ⟨n2, h2, hn2, hcap, hh2, rfl⟩
      exact ⟨n2, h2, List.mem_cons_of_mem _ hn2, hcap, hh2, rfl⟩

theorem mem_streamList_shape (ns : List SceneNode) (e : Entry)
    (he : e ∈ Part001.streamList ns) :
    ∃ n2 h2, n2 ∈ Part001.nodesOfList ns ∧ Part001.isImageCapableNode n2 = true ∧
      h2 ∈ fillsImageHashes n2.fills ∧ e = (uniqueKey n2.id h2, mkCandidate n2 h2) := by
  cases ns with
  | nil => cases he
  | cons c cs =>
    have he2 : e ∈ Part001.streamNode c ++ Part001.streamList cs := he
    rcases List.mem_append.mp he2 with h3 | h3
    · rcases mem_streamNode_shape c e h3 with ⟨n2, h2, hn2, hcap, hh2, rfl⟩
      exact ⟨n2, h2, by
        show n2 ∈ Part001.nodesOf c ++ Part001.nodesOfList cs
        exact List.mem_append_left _ hn2, hcap, hh2, rfl⟩
    · rcases mem_streamList_shape cs e h3 with ⟨n2, h2, hn2, hcap, hh2, rfl⟩
      exact ⟨n2, h2, by
        show n2 ∈ Part001.nodesOf c ++ Part001.nodesOfList cs
        exact List.mem_append_right _ hn2, hcap, hh2, rfl⟩

end

mutual

theorem entries_sub_streamNode (n : SceneNode) (n2 : SceneNode)
    (hn2 : n2 ∈ Part001.nodesOf n) (e : Entry)
    (he : e ∈ Part001.nodeEntries n2) : e ∈ Part001.streamNode n := by
  cases n with
  | mk i nm ty f hw w hh h hr cs =>
    show e ∈ Part001.nodeEntries (SceneNode.mk i nm ty f hw w hh h hr cs)
      ++ Part001.streamList cs
    have hn3 : n2 ∈ (SceneNode.mk i nm ty f hw w hh h hr cs) :: Part001.nodesOfList cs := hn2
    rcases List.mem_cons.mp hn3 with rfl | h3
    · exact List.mem_append_left _ he
    · exact List.mem_append_right _ (entries_sub_streamList cs n2 h3 e he)

theorem entries_sub_streamList (ns : List SceneNode) (n2 : SceneNode)
    (hn2 : n2 ∈ Part001.nodesOfList ns) (e : Entry)
    (he : e ∈ Part001.nodeEntries n2) : e ∈ Part001.streamList ns := by
  cases ns with
  | nil => cases hn2
  | cons c cs =>
    have hn3 : n2 ∈ Part001.nodesOf c ++ Part001.nodesOfList cs := hn2
    show e ∈ Part001.streamNode c ++ Part001.streamList cs
    rcases List.mem_append.mp hn3 with h3 | h3
    · exact List.mem_append_left _ (entries_sub_streamNode c n2 h3 e he)
    · exact List.mem_append_right _ (entries_sub_streamList cs n2 h3 e he)

end

theorem foldl_insert_eq_flat (entriesOf : SceneNode → List Entry) :
    ∀ (sel : List SceneNode) (m : List Entry),
      sel.foldl (fun acc n => insertEntries acc (entriesOf n)) m =
        insertEntries m (flatStream entriesOf sel) := by
  intro sel
  induction sel with
  | nil => intro m; rfl
  | cons n rest ih =>
    intro m
    show rest.foldl _ (insertEntries m (entriesOf n)) = _
    rw [ih]
    show _ = insertEntries m (entriesOf n ++ flatStream entriesOf rest)
    rw [insertEntries_append]

theorem mem_flatStream_shape (entriesOf : SceneNode → List Entry) :
    ∀ (sel : List SceneNode) (e : Entry), e ∈ flatStream entriesOf sel →
      ∃ n ∈ sel, e ∈ entriesOf n := by
  intro sel
  induction sel with
  | nil => intro e he; cases he
  | cons n rest ih =>
    intro e he
    rcases List.mem_append.mp he with h | h
    · exact ⟨n, List.mem_cons_self n rest, h⟩
    · rcases ih e h with ⟨n2, hn2, he2⟩
      exact ⟨n2, List.mem_cons_of_mem n hn2, he2⟩

theorem entries_sub_flatStream (entriesOf : SceneNode → List Entry) :
    ∀ (sel : List SceneNode) (n : SceneNode), n ∈ sel →
      ∀ e ∈ entriesOf n, e ∈ flatStream entriesOf sel := by
  intro sel
  induction sel with
  | nil => intro n hn; cases hn
  | cons c rest ih =>
    intro n hn e he
    rcases List.mem_cons.mp hn with rfl | h
    · exact List.mem_append_left _ he
    · exact List.mem_append_right _ (ih n h e he)

theorem mem_nodeEntries_part001 (n : SceneNode)
    (hcap : Part001.isImageCapableNode n = true) (h : String)
    (hh : h ∈ fillsImageHashes n.fills) :
    (uniqueKey n.id h, mkCandidate n h) ∈ Part001.nodeEntries n := by
  unfold Part001.nodeEntries
  rw [if_pos hcap]
  exact List.mem_map.mpr ⟨h, hh, rfl⟩

theorem mem_nodeEntries_codeTs (n : SceneNode)
    (hq : CodeTs.nodeQualifies n = true) (h : String)
    (hh : h ∈ fillsImageHashes n.fills) :
    (uniqueKey n.id h, mkCandidate n h) ∈ CodeTs.nodeEntries n := by
  unfold CodeTs.nodeEntries
  rw [if_pos hq]
  exact List.mem_map.mpr ⟨h, hh, rfl⟩

theorem shape_nodeEntries_codeTs (n : SceneNode) (e : Entry)
    (he : e ∈ CodeTs.nodeEntries n) :
    ∃ h, h ∈ fillsImageHashes n.fills ∧ e = (uniqueKey n.id h, mkCandidate n h) := by
  unfold CodeTs.nodeEntries at he
  split at he
  · rcases List.mem_map.mp he with ⟨h, hh, rfl⟩
    exact ⟨h, hh, rfl⟩
  · cases he

/-- Counting candidates by `(nodeId, imageHash)` pair equals counting entries
by key, provided every entry's key is the `uniqueKey` of its stored
candidate and the relevant node ids are underscore-free. -/
theorem countP_pair_eq_countP_key (out : List Entry) (a b : String)
    (ha : noUnderscore a)
    (hgood : ∀ e ∈ out, e.1 = uniqueKey e.2.nodeId e.2.imageHash ∧
      noUnderscore e.2.nodeId) :
    (out.map Prod.snd).countP (fun c => c.nodeId == a && c.imageHash == b) =
      out.countP (fun e => e.1 == uniqueKey a b) := by
  rw [List.countP_map]
  apply List.countP_congr
  intro e he
  rcases hgood e he with ⟨hkey, hu⟩
  show (e.2.nodeId == a && e.2.imageHash == b) = true ↔ (e.1 == uniqueKey a b) = true
  simp only [Bool.and_eq_true, beq_iff_eq]
  constructor
  · rintro ⟨h1, h2⟩
    rw [hkey, h1, h2]
  · intro h1
    rw [hkey] at h1
    exact uniqueKey_inj e.2.nodeId e.2.imageHash a b hu ha h1

theorem dedup_count_one (stream : List Entry) (a b : String)
    (ha : noUnderscore a)
    (hgood : ∀ e ∈ stream, e.1 = uniqueKey e.2.nodeId e.2.imageHash ∧
      noUnderscore e.2.nodeId)
    (hmem : uniqueKey a b ∈ keysOf stream) :
    ((insertEntries [] stream).map Prod.snd).countP
      (fun c => c.nodeId == a && c.imageHash == b) = 1 := by
  have hsub : ∀ e ∈ insertEntries [] stream, e ∈ stream := fun e he =>
    (mem_insertEntries_sub stream [] e he).resolve_left (by simp)
  rw [countP_pair_eq_countP_key _ a b ha (fun e he => hgood e (hsub e he))]
  apply countP_key_eq_one
  · exact nodup_keysOf_insertEntries stream [] (by simp [keysOf])
  · rw [mem_keysOf_insertEntries]
    exact Or.inr hmem

theorem dedup_pairs_nodup (stream : List Entry)
    (hshape : ∀ e ∈ stream, e.1 = uniqueKey e.2.nodeId e.2.imageHash) :
    (((insertEntries [] stream).map Prod.snd).map
      (fun c => (c.nodeId, c.imageHash))).Nodup := by
  have hsub : ∀ e ∈ insertEntries [] stream, e ∈ stream := fun e he =>
    (mem_insertEntries_sub stream [] e he).resolve_left (by simp)
  have hnd : (keysOf (insertEntries [] stream)).Nodup :=
    nodup_keysOf_insertEntries stream [] (by simp [keysOf])
  have hmapeq : keysOf (insertEntries [] stream) =
      ((insertEntries [] stream).map
        (fun e : Entry => (e.2.nodeId, e.2.imageHash))).map
        (fun p : String × String => uniqueKey p.1 p.2) := by
    rw [keysOf, List.map_map]
    exact List.map_congr_left (fun e he => hshape e (hsub e he))
  rw [hmapeq] at hnd
  have h2 := List.Nodup.of_map _ hnd
  rw [List.map_map]
  exact h2

/-- C1 (amended): provided every scanned node id is underscore-free (so that
distinct `(nodeId, imageHash)` pairs yield distinct `nodeId_imageHash`
keys), every qualifying node and image hash of the selection is represented
by exactly one candidate — a node with two fills of the same hash thus
contributes one candidate for that hash, and two different hashes on one
node contribute two distinct candidates; moreover the candidate list of
every scan (no proviso) is unique per `(nodeId, imageHash)` pair.  Holds
for the recursive `part_001` scanner and the flat `code.ts` scanner. -/
theorem claim1_dedup_amended :
    (∀ sel : List SceneNode,
      (((Part001.getUniqueImageCandidates sel).map
        (fun c => (c.nodeId, c.imageHash))).Nodup) ∧
      (((CodeTs.getUniqueImageCandidates sel).map
        (fun c => (c.nodeId, c.imageHash))).Nodup)) ∧
    (∀ sel : List SceneNode,
      (∀ n ∈ Part001.nodesOfList sel, noUnderscore n.id) →
      ∀ n ∈ Part001.nodesOfList sel, Part001.isImageCapableNode n = true →
      ∀ h ∈ fillsImageHashes n.fills,
        (Part001.getUniqueImageCandidates sel).countP
          (fun c => c.nodeId == n.id && c.imageHash == h) = 1) ∧
    (∀ sel : List SceneNode,
      (∀ n ∈ sel, noUnderscore n.id) →
      ∀ n ∈ sel, CodeTs.nodeQualifies n = true →
      ∀ h ∈ fillsImageHashes n.fills,
        (CodeTs.getUniqueImageCandidates sel).countP
          (fun c => c.nodeId == n.id && c.imageHash == h) = 1) := by
  have hout001 : ∀ sel : List SceneNode, Part001.getUniqueImageCandidates sel =
      (insertEntries [] (Part001.streamList sel)).map Prod.snd := by
    intro sel
    unfold Part001.getUniqueImageCandidates
    rw [traverseList_eq_insert]
  have houtCode : ∀ sel : List SceneNode, CodeTs.getUniqueImageCandidates sel =
      (insertEntries [] (flatStream CodeTs.nodeEntries sel)).map Prod.snd := by
    intro sel
    unfold CodeTs.getUniqueImageCandidates
    rw [foldl_insert_eq_flat]
  have hshape001 : ∀ sel : List SceneNode, ∀ e ∈ Part001.streamList sel,
      e.1 = uniqueKey e.2.nodeId e.2.imageHash := by
    intro sel e he
    rcases mem_streamList_shape sel e he with ⟨n2, h2, _, _, _, rfl⟩
    rfl
  have hshapeCode : ∀ sel : List SceneNode,
      ∀ e ∈ flatStream CodeTs.nodeEntries sel,
      e.1 = uniqueKey e.2.nodeId e.2.imageHash := by
    intro sel e he
    rcases mem_flatStream_shape CodeTs.nodeEntries sel e he with ⟨n2, _, he2⟩
    rcases shape_nodeEntries_codeTs n2 e he2 with ⟨h2, _, rfl⟩
    rfl
  refine ⟨fun sel => ⟨?_, ?_⟩, fun sel hids n hn hcap h hh => ?_,
    fun sel hids n hn hq h hh => ?_⟩
  · rw [hout001]
    exact dedup_pairs_nodup _ (hshape001 sel)
  · rw [houtCode]
    exact dedup_pairs_nodup _ (hshapeCode sel)
  · rw [hout001]
    apply dedup_count_one _ n.id h (hids n hn)
    · intro e he
      rcases mem_streamList_shape sel e he with ⟨n2, h2, hn2, _, _, rfl⟩
      exact ⟨rfl, hids n2 hn2⟩
    · rw [keysOf]
      exact List.mem_map.mpr ⟨(uniqueKey n.id h, mkCandidate n h),
        entries_sub_streamList sel n hn _ (mem_nodeEntries_part001 n hcap h hh), rfl⟩
  · rw [houtCode]
    apply dedup_count_one _ n.id h (hids n hn)
    · intro e he
      rcases mem_flatStream_shape CodeTs.nodeEntries sel e he with ⟨n2, hn2, he2⟩
      rcases shape_nodeEntries_codeTs n2 e he2 with ⟨h2, _, rfl⟩
      exact ⟨rfl, hids n2 hn2⟩
    · rw [keysOf]
      exact List.mem_map.mpr ⟨(uniqueKey n.id h, mkCandidate n h),
        entries_sub_flatStream CodeTs.nodeEntries sel n hn _
          (mem_nodeEntries_codeTs n hq h hh), rfl⟩

/-- A node whose single image hash `"b_c"` makes its dedup key collide with
key of pair `("a_b", "c")`. -/
def collidingNodeX : SceneNode :=
  SceneNode.mk "a" "x" NodeType.rectangle
    (Fills.concrete [Paint.image (some "b_c")]) true 1 true 1 true []

/-- A node with two image fills carrying the two different hashes `"c"` and
`"d"`. -/
def collidingNodeY : SceneNode :=
  SceneNode.mk "a_b" "y" NodeType.rectangle
    (Fills.concrete [Paint.image (some "c"), Paint.image (some "d")])
    true 1 true 1 true []

/-- Counterexample to C1 as stated: node `"a_b"` carries two image fills with
the different hashes `"c"` and `"d"`, yet the scan of
`[collidingNodeX, collidingNodeY]` returns exactly one candidate for that
node (in both scanner variants): the string key `"a" ++ "_" ++ "b_c"` of
the first node equals the key `"a_b" ++ "_" ++ "c"`, so the second node's
`"c"` candidate is dropped as a duplicate. -/
theorem claim1_counterexample :
    fillsImageHashes collidingNodeY.fills = ["c", "d"] ∧
    ("c" : String) ≠ "d" ∧
    (Part001.getUniqueImageCandidates [collidingNodeX, collidingNodeY]).countP
      (fun c => c.nodeId == "a_b") = 1 ∧
    (CodeTs.getUniqueImageCandidates [collidingNodeX, collidingNodeY]).countP
      (fun c => c.nodeId == "a_b") = 1 := by
  refine ⟨rfl, by decide, rfl, rfl⟩

/-- Witness for the amended C1 at a concrete one-node selection with an
underscore-free id. -/
theorem claim1_dedup_witness :
    (((Part001.getUniqueImageCandidates [rectNode]).map
      (fun c => (c.nodeId, c.imageHash))).Nodup) ∧
    (Part001.getUniqueImageCandidates [rectNode]).countP
      (fun c => c.nodeId == "1:2" && c.imageHash == "hashR") = 1 ∧
    (CodeTs.getUniqueImageCandidates [rectNode]).countP
      (fun c => c.nodeId == "1:2" && c.imageHash == "hashR") = 1 := by
  have hlist : Part001.nodesOfList [rectNode] = [rectNode] := rfl
  have hids001 : ∀ n ∈ Part001.nodesOfList [rectNode], noUnderscore n.id := by
    intro n hn
    rw [hlist] at hn
    have h2 := List.mem_singleton.mp hn
    subst h2
    unfold noUnderscore
    decide
  have hidsFlat : ∀ n ∈ [rectNode], noUnderscore n.id := by
    intro n hn
    have h2 := List.mem_singleton.mp hn
    subst h2
    unfold noUnderscore
    decide
  refine ⟨(claim1_dedup_amended.1 [rectNode]).1, ?_, ?_⟩
  · exact claim1_dedup_amended.2.1 [rectNode] hids001 rectNode
      (by rw [hlist]; exact List.mem_singleton.mpr rfl) rfl "hashR" (by decide)
  · exact claim1_dedup_amended.2.2 [rectNode] hidsFlat rectNode
      (List.mem_singleton.mpr rfl) rfl "hashR" (by decide)
